import Mathlib

/-!
Verification development for the automaker repository.

Shallow embedding of:
* the tool sandbox (`tool-executor.ts` / `tool-registry.ts`): `executeToolCalls`,
  `getToolDefinitions`, the Edit tool's replacement engine, the Glob tool's
  directory walk and pattern matcher;
* the OpenAI-compatible provider (`openai-provider.ts`): streaming delta
  accumulation of tool calls by slot index and the tool loop with its
  turn budget;
* the session registry (`agent-service.ts`): `sendMessage`, `stopExecution`,
  `deleteSession`, the prompt queue and its automatic drain.

External effects (filesystem, HTTP, the backend stream, `JSON.parse`, the
system clock and id generation) are parameters of the embedded functions:
each theorem quantifies over them, so it holds for every behaviour of the
environment.  JavaScript string truthiness is modelled as "non-empty".
-/

set_option maxHeartbeats 1600000
set_option linter.unusedVariables false

namespace Automaker

/-! ## Tool sandbox data model (providers/tools/types.ts) -/

/-- Minimal JSON value type standing for the result of `JSON.parse`.
The parser itself is external (a parameter of `executeToolCalls`). -/
inductive Json where
  | null
  | bool (b : Bool)
  | num (n : Int)
  | str (s : String)
  | arr (elems : List Json)
  | obj (fields : List (String × Json))

/-- `ToolExecutionContext` from types.ts (abort handle elided: cancellation
is modelled by the outcome parameters of the callers). -/
structure ToolExecutionContext where
  cwd : String
deriving DecidableEq

/-- `ToolExecutionResult` from types.ts. -/
structure ToolExecutionResult where
  content : String
  isError : Bool
deriving DecidableEq

/-- `ToolCall` from types.ts. -/
structure ToolCall where
  id : String
  name : String
  arguments : String
deriving DecidableEq

/-- `ToolExecutionOutput` from types.ts. -/
structure ToolExecutionOutput where
  id : String
  name : String
  content : String
  isError : Bool
deriving DecidableEq

/-- A tool implementation: the `execute` field of a `ToolDefinition`.
A thrown JavaScript exception is modelled as `Except.error`. -/
def ToolImpl : Type := Json → ToolExecutionContext → Except String ToolExecutionResult

/-- `ToolDefinition` from types.ts (the JSON-schema `parameters` and the
`description`, which never influence execution, are elided). -/
structure ToolDefinition where
  name : String
  execute : ToolImpl

/-- The seven concrete tool implementations of tool-registry.ts perform
filesystem, subprocess and network I/O; they are parameters here. -/
structure ToolImpls where
  read : ToolImpl
  write : ToolImpl
  edit : ToolImpl
  glob : ToolImpl
  grep : ToolImpl
  bash : ToolImpl
  webFetch : ToolImpl

/-- `DEFAULT_TOOL_NAMES` from tool-registry.ts. -/
def DEFAULT_TOOL_NAMES : List String :=
  ["Read", "Write", "Edit", "Glob", "Grep", "Bash", "WebFetch"]

/-- `TOOL_DEFINITIONS` from tool-registry.ts: the fixed catalog, in source
order, with the corresponding implementations. -/
def TOOL_DEFINITIONS (impl : ToolImpls) : List ToolDefinition :=
  [⟨"Read", impl.read⟩, ⟨"Write", impl.write⟩, ⟨"Edit", impl.edit⟩,
   ⟨"Glob", impl.glob⟩, ⟨"Grep", impl.grep⟩, ⟨"Bash", impl.bash⟩,
   ⟨"WebFetch", impl.webFetch⟩]

/-- `getToolDefinitions` from tool-registry.ts: filters the catalog by the
allowed-tools list, defaulting to `DEFAULT_TOOL_NAMES` when absent. -/
def getToolDefinitions (impl : ToolImpls) (allowedTools : Option (List String)) :
    List ToolDefinition :=
  let names := allowedTools.getD DEFAULT_TOOL_NAMES
  (TOOL_DEFINITIONS impl).filter (fun tool => names.contains tool.name)

/-- Lookup in the `Map` the executor builds from `getToolDefinitions`.
Catalog names are distinct, so first-match lookup coincides with the
JavaScript `Map` (which keeps the last duplicate). -/
def registryGet (impl : ToolImpls) (allowedTools : Option (List String))
    (name : String) : Option ToolDefinition :=
  (getToolDefinitions impl allowedTools).find? (fun tool => tool.name == name)

/-- One iteration of the loop in `executeToolCalls` (tool-executor.ts):
unknown tool, argument-parse failure and a throwing implementation each
become an error-flagged output instead of an exception. -/
def executeOneCall (parse : String → Except String Json) (impl : ToolImpls)
    (context : ToolExecutionContext) (allowedTools : Option (List String))
    (call : ToolCall) : ToolExecutionOutput :=
  match registryGet impl allowedTools call.name with
  | none =>
    ⟨call.id, call.name, "Tool \"" ++ call.name ++ "\" is not available.", true⟩
  | some tool =>
    match (if call.arguments.isEmpty then Except.ok (Json.obj []) else parse call.arguments) with
    | Except.error e =>
      ⟨call.id, call.name, "Failed to parse tool arguments: " ++ e, true⟩
    | Except.ok args =>
      match tool.execute args context with
      | Except.ok r => ⟨call.id, call.name, r.content, r.isError⟩
      | Except.error e =>
        ⟨call.id, call.name, "Tool \"" ++ call.name ++ "\" failed: " ++ e, true⟩

/-- `executeToolCalls` from tool-executor.ts.  The source's for-loop pushes
one result per call in order, which is exactly a map; returning a plain list
(not `Except`) is the formal counterpart of "never throws". -/
def executeToolCalls (parse : String → Except String Json) (impl : ToolImpls)
    (calls : List ToolCall) (context : ToolExecutionContext)
    (allowedTools : Option (List String)) : List ToolExecutionOutput :=
  calls.map (executeOneCall parse impl context allowedTools)

/-! ## Edit tool replacement engine (tool-registry.ts editTool) -/

/-- `getString` from tool-registry.ts: a value is kept only when it is a
string whose trim is truthy, i.e. it contains a non-whitespace character. -/
def getStringOpt (v : Option String) : Option String :=
  v.bind (fun s => if s.data.any (fun c => !c.isWhitespace) then some s else none)

/-- One entry of the `edits` array handed to the Edit tool
(after the `old_string`/`oldString` etc. coercions). -/
structure EditEntry where
  old_string : Option String
  new_string : Option String
  replace_all : Bool
deriving DecidableEq

/-- Does `l` start with `pat`? (character-level `String.startsWith`). -/
def startsWithChars : List Char → List Char → Bool
  | _, [] => true
  | [], _ :: _ => false
  | c :: cs, p :: ps => c = p && startsWithChars cs ps

/-- Split at the first occurrence of `pat`: returns the characters before
the match and the characters after it (JavaScript `indexOf` + slicing). -/
def splitFirstAt : List Char → List Char → Option (List Char × List Char)
  | pat, [] => if startsWithChars [] pat then some ([], []) else none
  | pat, c :: cs =>
    if startsWithChars (c :: cs) pat then some ([], (c :: cs).drop pat.length)
    else (splitFirstAt pat cs).map (fun p => (c :: p.1, p.2))

/-- Fuel-driven worker for `splitAllChars`; the fuel (initially
`l.length + 1`) dominates the number of splits because each found
occurrence of a non-empty pattern strictly shrinks the remainder. -/
def splitAllCharsFuel : Nat → List Char → List Char → List (List Char)
  | 0, _, l => [l]
  | fuel + 1, pat, l =>
    match splitFirstAt pat l with
    | none => [l]
    | some (before, after) => before :: splitAllCharsFuel fuel pat after

/-- JavaScript `String.prototype.split` with a non-empty separator
(the Edit tool only ever splits on a non-empty `old_string`). -/
def splitAllChars (pat l : List Char) : List (List Char) :=
  splitAllCharsFuel (l.length + 1) pat l

/-- JavaScript `haystack.split(sep)` on strings. -/
def jsSplit (s sep : String) : List String :=
  (splitAllChars sep.data s.data).map List.asString

/-- JavaScript `haystack.indexOf(needle)` (character positions; inputs in
this code base are 1-byte characters). -/
def jsIndexOf (hay pat : String) : Option Nat :=
  (splitFirstAt pat.data hay.data).map (fun p => p.1.length)

/-- The replacement loop of `editTool` (tool-registry.ts): walks the edit
entries in order over the current content, counting replacements;
a missing `old_string` or a not-found `old_string` aborts with an error. -/
def applyEditsGo : String → Nat → List EditEntry → Except String (String × Nat)
  | updated, total, [] => Except.ok (updated, total)
  | updated, total, e :: rest =>
    match getStringOpt e.old_string with
    | none => Except.error "Edit entries must include old_string."
    | some oldS =>
      let newS := e.new_string.getD ""
      if e.replace_all then
        let parts := jsSplit updated oldS
        if parts.length = 1 then
          Except.error ("Edit failed: \"" ++ oldS ++ "\" not found.")
        else
          applyEditsGo (String.intercalate newS parts)
            (total + (parts.length - 1)) rest
      else
        match jsIndexOf updated oldS with
        | none => Except.error ("Edit failed: \"" ++ oldS ++ "\" not found.")
        | some idx =>
          applyEditsGo
            (List.asString (updated.data.take idx ++ newS.data ++
              updated.data.drop (idx + oldS.length)))
            (total + 1) rest

/-- Observable outcome of the Edit tool on a file whose current content is
`original`: an error result, a reported no-op (nothing written), or the
newly written content with the reported replacement count. -/
inductive EditOutcome where
  | errorResult (msg : String)
  | noChanges
  | written (content : String) (replacements : Nat)
deriving DecidableEq

/-- The content-transformation core of `editTool`: apply the edits, then
either report "no changes" (content unchanged, nothing written) or write
the updated content and report the total replacement count. -/
def editApply (original : String) (edits : List EditEntry) : EditOutcome :=
  match applyEditsGo original 0 edits with
  | Except.error msg => EditOutcome.errorResult msg
  | Except.ok (updated, total) =>
    if updated = original then EditOutcome.noChanges
    else EditOutcome.written updated total

/-! ## Glob tool: pattern matcher and directory walk (tool-registry.ts) -/

/-- `DEFAULT_IGNORE_DIRS` from tool-registry.ts. -/
def DEFAULT_IGNORE_DIRS : List String :=
  [".git", "node_modules", "dist", "build", ".next", "out", ".cache"]

/-- `DEFAULT_MAX_RESULTS` from tool-registry.ts. -/
def DEFAULT_MAX_RESULTS : Nat := 2000

/-- Tokens of the anchored regular expression built by `globToRegExp`:
`**` becomes `.*` (`starAll`), `**/` additionally a `/?` (`optSlash`),
`*` becomes `[^/]*` (`starSeg`), `?` becomes `.` (`anyChar`), anything
else is an escaped literal. -/
inductive GTok where
  | lit (c : Char)
  | anyChar
  | starSeg
  | starAll
  | optSlash
deriving DecidableEq

/-- `globToRegExp`'s compilation loop, over the backslash-normalized
pattern characters. -/
def compileGlob : List Char → List GTok
  | [] => []
  | '*' :: '*' :: '/' :: rest => GTok.starAll :: GTok.optSlash :: compileGlob rest
  | '*' :: '*' :: rest => GTok.starAll :: compileGlob rest
  | '*' :: rest => GTok.starSeg :: compileGlob rest
  | '?' :: rest => GTok.anyChar :: compileGlob rest
  | c :: rest => GTok.lit c :: compileGlob rest

/-- Fuel-driven anchored matcher for the compiled pattern; every step
shrinks `tokens.length + chars.length`, so fuel
`tokens.length + chars.length + 1` is exact. -/
def gmatchFuel : Nat → List GTok → List Char → Bool
  | 0, _, _ => false
  | _ + 1, [], [] => true
  | _ + 1, [], _ :: _ => false
  | _ + 1, GTok.lit _ :: _, [] => false
  | fuel + 1, GTok.lit c :: ts, d :: ds => c = d && gmatchFuel fuel ts ds
  | _ + 1, GTok.anyChar :: _, [] => false
  | fuel + 1, GTok.anyChar :: ts, _ :: ds => gmatchFuel fuel ts ds
  | fuel + 1, GTok.optSlash :: ts, ds =>
    gmatchFuel fuel ts ds ||
      (match ds with
       | '/' :: ds2 => gmatchFuel fuel ts ds2
       | _ => false)
  | fuel + 1, GTok.starSeg :: ts, ds =>
    gmatchFuel fuel ts ds ||
      (match ds with
       | d :: ds2 => !(d = '/') && gmatchFuel fuel (GTok.starSeg :: ts) ds2
       | [] => false)
  | fuel + 1, GTok.starAll :: ts, ds =>
    gmatchFuel fuel ts ds ||
      (match ds with
       | _ :: ds2 => gmatchFuel fuel (GTok.starAll :: ts) ds2
       | [] => false)

/-- `normalizeRelativePath`: backslashes become forward slashes. -/
def normalizeSlashes (cs : List Char) : List Char :=
  cs.map (fun c => if c = '\\' then '/' else c)

/-- `matcher.test(file)`: full anchored match of the compiled glob. -/
def globMatch (pattern file : String) : Bool :=
  let toks := compileGlob (normalizeSlashes pattern.data)
  gmatchFuel (toks.length + file.data.length + 1) toks file.data

/-- A directory entry as returned by `readdir(..., { withFileTypes: true })`;
a `dir` carries the listing of its subtree (the filesystem is an explicit
parameter of the walk). -/
inductive Dirent where
  | file (name : String)
  | dir (name : String) (entries : List Dirent)

mutual

/-- Size of one entry's subtree (for the walk's fuel bound). -/
def direntSize : Dirent → Nat
  | Dirent.file _ => 1
  | Dirent.dir _ es => 1 + direntsSize es

/-- Size of a listing's subtrees. -/
def direntsSize : List Dirent → Nat
  | [] => 0
  | d :: ds => direntSize d + direntsSize ds

end

/-- The `for (const entry of entries)` body of `walkDirectory`:
subdirectories not on the ignore list are pushed onto the pending stack,
files are recorded (as relative-path segment lists); reaching `maxResults`
returns the results early (`Except.error` models that early return). -/
def processEntries (ignore : List String) (maxResults : Nat) (rel : List String) :
    List Dirent → List (List String × List Dirent) → List (List String) →
    Except (List (List String)) (List (List String × List Dirent) × List (List String))
  | [], pending, results => Except.ok (pending, results)
  | Dirent.dir n sub :: rest, pending, results =>
    if ignore.contains n then processEntries ignore maxResults rel rest pending results
    else processEntries ignore maxResults rel rest (pending ++ [(rel ++ [n], sub)]) results
  | Dirent.file n :: rest, pending, results =>
    let results2 := results ++ [rel ++ [n]]
    if maxResults ≤ results2.length then Except.error results2
    else processEntries ignore maxResults rel rest pending results2

/-- The `while (pending.length > 0)` loop of `walkDirectory`
(`pending.pop()` takes the most recently pushed directory).  Relative
paths are represented as segment lists; the fuel dominates the loop's
decreasing measure, so exhaustion is unreachable from `walkDirectory`. -/
def walkAux (ignore : List String) (maxResults : Nat) :
    Nat → List (List String × List Dirent) → List (List String) → List (List String)
  | 0, _, results => results
  | fuel + 1, pending, results =>
    match pending.getLast? with
    | none => results
    | some (rel, entries) =>
      match processEntries ignore maxResults rel entries pending.dropLast results with
      | Except.error res => res
      | Except.ok (pending2, results2) => walkAux ignore maxResults fuel pending2 results2

/-- `walkDirectory(rootDir, maxResults)`: `rootEntries` is the listing of
the (resolved) root directory; results are relative paths as segment
lists, joined by `/` by the caller. -/
def walkDirectory (rootEntries : List Dirent) (maxResults : Nat) : List (List String) :=
  walkAux DEFAULT_IGNORE_DIRS maxResults (direntsSize rootEntries + 2) [([], rootEntries)] []

/-- `path.relative` followed by `normalizeRelativePath`, on segment lists. -/
def joinSegs (segs : List String) : String :=
  String.intercalate "/" segs

/-- The input record of `globTool` after `asObject` (the fields the tool
reads).  `max_results` is modelled post-`Number` coercion, `none` covering
both an absent field and a falsy coercion. -/
structure GlobParams where
  pattern : Option String
  path : Option String
  max_results : Option Nat

/-- `globTool`'s matching pipeline, keeping the relative paths as segment
lists: the walk is capped at `DEFAULT_MAX_RESULTS` (the parsed
`max_results` is computed by the source but never passed to the walk). -/
def globMatchesSegs (params : GlobParams) (rootEntries : List Dirent) :
    List (List String) :=
  let pattern := (getStringOpt params.pattern).getD "**/*"
  let maxResults := (params.max_results.filter (fun n => !(n = 0))).getD DEFAULT_MAX_RESULTS
  let files := walkDirectory rootEntries DEFAULT_MAX_RESULTS
  files.filter (fun segs => globMatch pattern (joinSegs segs))

/-- The file paths `globTool` reports (before joining with newlines). -/
def globFiles (params : GlobParams) (rootEntries : List Dirent) : List String :=
  (globMatchesSegs params rootEntries).map joinSegs

/-- The full `ToolExecutionResult` of a successful `globTool` call. -/
def globToolResult (params : GlobParams) (rootEntries : List Dirent) :
    ToolExecutionResult :=
  let found := globFiles params rootEntries
  if found.isEmpty then ⟨"No files matched.", false⟩
  else ⟨String.intercalate "\n" found, false⟩

/-! ## OpenAI-compatible provider (openai-provider.ts) -/

/-- One entry of `choices[0].delta.tool_calls` in an `OpenAIStreamChunk`:
a fragment of a tool call, keyed by its slot `index`. -/
structure ToolCallDelta where
  index : Nat
  id : Option String
  name : Option String
  arguments : Option String
deriving DecidableEq

/-- `ToolCallAccumulator` from openai-provider.ts. -/
structure ToolCallAccumulator where
  id : String
  name : String
  arguments : String
deriving DecidableEq

/-- The fresh accumulator `{ id: '', name: '', arguments: '' }`. -/
def emptyAccumulator : ToolCallAccumulator := ⟨"", "", ""⟩

/-- Apply one fragment to an accumulator: a truthy (non-empty) `id` or
`name` overwrites, truthy `arguments` text is appended. -/
def applyDelta (acc : ToolCallAccumulator) (d : ToolCallDelta) : ToolCallAccumulator :=
  let acc1 := match d.id with
    | some s => if s.isEmpty then acc else { acc with id := s }
    | none => acc
  let acc2 := match d.name with
    | some s => if s.isEmpty then acc1 else { acc1 with name := s }
    | none => acc1
  match d.arguments with
  | some s => if s.isEmpty then acc2 else { acc2 with arguments := acc2.arguments ++ s }
  | none => acc2

/-- Association-list model of the JavaScript `Map<number, ToolCallAccumulator>`:
`set` updates in place or appends, preserving insertion order. -/
def setAcc : List (Nat × ToolCallAccumulator) → Nat → ToolCallAccumulator →
    List (Nat × ToolCallAccumulator)
  | [], i, a => [(i, a)]
  | (j, b) :: rest, i, a =>
    if j = i then (i, a) :: rest else (j, b) :: setAcc rest i a

/-- `Map.get` on the accumulator map. -/
def getAcc : List (Nat × ToolCallAccumulator) → Nat → Option ToolCallAccumulator
  | [], _ => none
  | (j, b) :: rest, i => if j = i then some b else getAcc rest i

/-- One iteration of the `for (const toolCallDelta of choice.delta.tool_calls)`
loop: fetch (or create) the slot's accumulator, apply the fragment, store. -/
def stepDelta (m : List (Nat × ToolCallAccumulator)) (d : ToolCallDelta) :
    List (Nat × ToolCallAccumulator) :=
  setAcc m d.index (applyDelta ((getAcc m d.index).getD emptyAccumulator) d)

/-- Accumulate a whole stream of fragments, starting from the empty map. -/
def accumulate (ds : List ToolCallDelta) : List (Nat × ToolCallAccumulator) :=
  ds.foldl stepDelta []

/-- The per-slot view of one accumulation step: what one slot's entry
becomes after one of its own fragments (other slots' fragments leave it
untouched). -/
def optStep (oa : Option ToolCallAccumulator) (d : ToolCallDelta) :
    Option ToolCallAccumulator :=
  some (applyDelta (oa.getD emptyAccumulator) d)

/-- The comparator `(a, b) => a[0] - b[0]` on map entries. -/
def keyLE (a b : Nat × ToolCallAccumulator) : Prop := a.1 ≤ b.1

/-- Strict version of `keyLE`; the finished entries have pairwise distinct
slot indices, so they are strictly sorted. -/
def keyLT (a b : Nat × ToolCallAccumulator) : Prop := a.1 < b.1

instance : DecidableRel keyLE := fun a b => inferInstanceAs (Decidable (a.1 ≤ b.1))

instance : IsTotal (Nat × ToolCallAccumulator) keyLE := ⟨fun a b => Nat.le_total a.1 b.1⟩

instance : IsTrans (Nat × ToolCallAccumulator) keyLE := ⟨fun _ _ _ h h2 => Nat.le_trans h h2⟩

instance : IsAntisymm (Nat × ToolCallAccumulator) keyLT :=
  ⟨fun _ _ h h2 => absurd h2 (Nat.lt_asymm h)⟩

/-- `Array.from(map.entries()).sort((a, b) => a[0] - b[0])`. -/
def entriesSorted (m : List (Nat × ToolCallAccumulator)) :
    List (Nat × ToolCallAccumulator) :=
  List.insertionSort keyLE m

/-- Is an accumulated call complete (`call.id && call.name`)? -/
def isFinished (c : ToolCallAccumulator) : Bool :=
  !c.id.isEmpty && !c.name.isEmpty

/-- The sorted entries whose accumulated call is complete, with their slot
indices still attached. -/
def finishedEntries (m : List (Nat × ToolCallAccumulator)) :
    List (Nat × ToolCallAccumulator) :=
  (entriesSorted m).filter (fun p => isFinished p.2)

/-- The `toolCalls` value computed after each streaming round:
entries sorted by slot index, projected to calls, incomplete ones dropped. -/
def finishToolCalls (m : List (Nat × ToolCallAccumulator)) :
    List ToolCallAccumulator :=
  ((entriesSorted m).map Prod.snd).filter isFinished

/-- `toolCalls` as a function of the raw fragment stream of one round. -/
def toolCallsOf (ds : List ToolCallDelta) : List ToolCallAccumulator :=
  finishToolCalls (accumulate ds)

/-- `delta` of a streamed chunk's first choice. -/
structure ChunkDelta where
  content : Option String
  tool_calls : Option (List ToolCallDelta)
deriving DecidableEq

/-- One element of `chunk.choices`. -/
structure ChunkChoice where
  delta : Option ChunkDelta
  finish_reason : Option String
deriving DecidableEq

/-- `OpenAIStreamChunk` (only `choices` matters to the loop). -/
structure StreamChunk where
  choices : List ChunkChoice
deriving DecidableEq

/-- Per-round mutable state of the `for await (const chunk of stream)` loop. -/
structure RoundState where
  assistantText : String
  accs : List (Nat × ToolCallAccumulator)
  finishReason : Option String
  textEvents : List String
deriving DecidableEq

/-- One chunk of the streaming loop: chunks without a first choice or
without a delta are skipped entirely; truthy content is appended to the
assistant text (and yielded); tool-call fragments are accumulated; a truthy
finish reason is recorded. -/
def stepChunk (rs : RoundState) (c : StreamChunk) : RoundState :=
  match c.choices.head? with
  | none => rs
  | some choice =>
    match choice.delta with
    | none => rs
    | some delta =>
      let rs1 := match delta.content with
        | some t =>
          if t.isEmpty then rs
          else { rs with assistantText := rs.assistantText ++ t,
                         textEvents := rs.textEvents ++ [t] }
        | none => rs
      let rs2 := match delta.tool_calls with
        | some ds => { rs1 with accs := ds.foldl stepDelta rs1.accs }
        | none => rs1
      match choice.finish_reason with
      | some r => if r.isEmpty then rs2 else { rs2 with finishReason := some r }
      | none => rs2

/-- One whole backend streaming round. -/
def processRound (chunks : List StreamChunk) : RoundState :=
  chunks.foldl stepChunk ⟨"", [], none, []⟩

/-- Canonical events yielded by `executeQuery` (the `ProviderMessage`s,
reduced to the shapes the loop emits). -/
inductive QEvent where
  | assistantText (t : String)
  | toolUseBlock (calls : List ToolCallAccumulator)
  | toolResult (id : String) (content : String)
  | resultSuccess (result : String)
deriving DecidableEq

/-- The backend-native message list the loop threads between rounds. -/
structure OAMsg where
  role : String
  content : Option String
  tool_calls : List (String × String × String)
  tool_call_id : Option String
deriving DecidableEq

instance {ε α : Type} [DecidableEq ε] [DecidableEq α] : DecidableEq (Except ε α) :=
  fun a b =>
    match a, b with
    | Except.ok x, Except.ok y =>
      if h : x = y then isTrue (by rw [h]) else isFalse (by intro hc; cases hc; exact h rfl)
    | Except.error x, Except.error y =>
      if h : x = y then isTrue (by rw [h]) else isFalse (by intro hc; cases hc; exact h rfl)
    | Except.ok _, Except.error _ => isFalse (by intro hc; cases hc)
    | Except.error _, Except.ok _ => isFalse (by intro hc; cases hc)

/-- Outcome of `executeQuery`'s tool loop: the yielded events, the number
of backend streaming rounds opened, and either the final text or the
thrown error. -/
structure QueryOutcome where
  events : List QEvent
  rounds : Nat
  result : Except String String
deriving DecidableEq

/-- The assistant message appended to `activeMessages` after a round with
tool calls (`content: assistantText || null`). -/
def assistantToolMsg (text : String) (calls : List ToolCallAccumulator) : OAMsg :=
  ⟨"assistant", if text.isEmpty then none else some text,
   calls.map (fun c => (c.id, c.name, c.arguments)), none⟩

/-- The `while (iterations < maxTurns)` tool loop of `executeQuery`,
with the remaining budget as fuel.  The backend's response to each opened
round is the external parameter `backend` (indexed by round number), and
the tool executor's behaviour is the parameter `runTools`.  Exhausting the
budget throws `OpenAI tool loop exceeded maxTurns.`; a round with no
complete tool calls yields a success result carrying the round's
accumulated text and returns. -/
def queryLoopAux (backend : Nat → List StreamChunk)
    (runTools : List ToolCall → List ToolExecutionOutput) :
    Nat → Nat → List OAMsg → List QEvent → QueryOutcome
  | 0, _, _, events =>
    ⟨events, 0, Except.error "OpenAI tool loop exceeded maxTurns."⟩
  | fuel + 1, iter, msgs, events =>
    let rs := processRound (backend iter)
    let calls := finishToolCalls rs.accs
    let events := events ++ rs.textEvents.map QEvent.assistantText
    if calls.isEmpty then
      ⟨events ++ [QEvent.resultSuccess rs.assistantText], 1, Except.ok rs.assistantText⟩
    else
      let events := events ++ [QEvent.toolUseBlock calls]
      let msgs := msgs ++ [assistantToolMsg rs.assistantText calls]
      let callInputs : List ToolCall := calls.map (fun c => ⟨c.id, c.name, c.arguments⟩)
      let results := runTools callInputs
      let msgs := msgs ++ results.map (fun r => ⟨"tool", some r.content, [], some r.id⟩)
      let events := events ++ results.map (fun r => QEvent.toolResult r.id r.content)
      let out := queryLoopAux backend runTools fuel (iter + 1) msgs events
      { out with rounds := out.rounds + 1 }

/-- `executeQuery`'s tool loop from its initial state (`initMsgs` is the
system-prompt / history / user-content list built before the loop). -/
def executeQueryLoop (backend : Nat → List StreamChunk)
    (runTools : List ToolCall → List ToolExecutionOutput)
    (initMsgs : List OAMsg) (maxTurns : Nat) : QueryOutcome :=
  queryLoopAux backend runTools maxTurns 0 initMsgs []

/-! ## Session registry (agent-service.ts) -/

/-- `Message` from agent-service.ts (image attachments elided: they never
influence the control flow verified here). -/
structure Message where
  id : String
  role : String
  content : String
  timestamp : String
  isError : Bool
deriving DecidableEq

/-- `QueuedPrompt` from agent-service.ts (`imagePaths` elided). -/
structure QueuedPrompt where
  id : String
  message : String
  model : Option String
  addedAt : String
deriving DecidableEq

/-- In-memory `Session`: the `abortController` field is modelled by the
boolean `hasAbortController` (at most one outstanding handle). -/
structure Session where
  messages : List Message
  isRunning : Bool
  hasAbortController : Bool
  workingDirectory : String
  model : Option String
  promptQueue : List QueuedPrompt
deriving DecidableEq

/-- `SessionMetadata` from agent-service.ts. -/
structure SessionMetadata where
  id : String
  name : String
  workingDirectory : String
  createdAt : String
  updatedAt : String
  archived : Bool
  model : Option String
deriving DecidableEq

/-- The whole `AgentService` state: the in-memory session map plus the
persisted artifacts — the metadata index file, one transcript file per
session (`stateDir/{id}.json`) and one queue file per session
(`stateDir/{id}-queue.json`), each store keyed by session id. -/
structure AgentState where
  sessions : List (String × Session)
  metadata : List (String × SessionMetadata)
  transcriptFiles : List (String × List Message)
  queueFiles : List (String × List QueuedPrompt)
deriving DecidableEq

/-- JavaScript `Map.get` / object-property read on a string-keyed store. -/
def alGet {α : Type} : List (String × α) → String → Option α
  | [], _ => none
  | (k2, v) :: rest, k => if k2 = k then some v else alGet rest k

/-- JavaScript `Map.set` / property write: update in place or append. -/
def alSet {α : Type} : List (String × α) → String → α → List (String × α)
  | [], k, v => [(k, v)]
  | (k2, v2) :: rest, k, v =>
    if k2 = k then (k, v) :: rest else (k2, v2) :: alSet rest k v

/-- JavaScript `delete map[k]` / `Map.delete` / `unlink`. -/
def alRemove {α : Type} (m : List (String × α)) (k : String) : List (String × α) :=
  m.filter (fun p => !(p.1 == k))

/-- Events published through `emitAgentEvent` (payload fields reduced to
what the verified claims observe). -/
inductive AgentEvent where
  | started
  | userMessage (m : Message)
  | streamDelta (messageId : String) (content : String)
  | toolUse (name : String)
  | complete (messageId : Option String) (content : String) (toolUses : List String)
  | errorEvent (msg : String)
  | queueUpdated (queue : List QueuedPrompt)
  | queueError (msg : String) (promptId : String)
deriving DecidableEq

/-- `updateSessionTimestamp`: touch the metadata entry's `updatedAt`. -/
def updateSessionTimestamp (st : AgentState) (sessionId : String) (now : String) :
    AgentState :=
  match alGet st.metadata sessionId with
  | some md => { st with metadata := alSet st.metadata sessionId { md with updatedAt := now } }
  | none => st

/-- `saveSession`: write the transcript file, then touch the timestamp. -/
def saveSessionState (st : AgentState) (sessionId : String)
    (messages : List Message) (now : String) : AgentState :=
  updateSessionTimestamp
    { st with transcriptFiles := alSet st.transcriptFiles sessionId messages }
    sessionId now

/-- `saveQueueState`: write the per-session queue file. -/
def saveQueueState (st : AgentState) (sessionId : String)
    (queue : List QueuedPrompt) : AgentState :=
  { st with queueFiles := alSet st.queueFiles sessionId queue }

/-- `updateSession`: merge an update into the metadata entry and stamp
`updatedAt` (the merge is the function `upd`). -/
def updateSessionMeta (st : AgentState) (sessionId : String)
    (upd : SessionMetadata → SessionMetadata) (now : String) : AgentState :=
  match alGet st.metadata sessionId with
  | none => st
  | some md =>
    { st with metadata := alSet st.metadata sessionId { upd md with updatedAt := now } }

/-- `stopExecution`: abort and clear the handle if one is outstanding and
flip the running flag; returns the `{success, error?}` shape. -/
def stopExecution (st : AgentState) (sessionId : String) :
    AgentState × Bool × Option String :=
  match alGet st.sessions sessionId with
  | none => (st, false, some "Session not found")
  | some s =>
    if s.hasAbortController then
      let s2 := { s with isRunning := false, hasAbortController := false }
      ({ st with sessions := alSet st.sessions sessionId s2 }, true, none)
    else (st, true, none)

/-- `deleteSession`: on a known id, delete the metadata entry, persist the
index, unlink the transcript file and evict the in-memory session.  (The
queue file is not touched by the source.) -/
def deleteSession (st : AgentState) (sessionId : String) : AgentState × Bool :=
  match alGet st.metadata sessionId with
  | none => (st, false)
  | some _ =>
    let st1 := { st with metadata := alRemove st.metadata sessionId }
    let st2 := { st1 with transcriptFiles := alRemove st1.transcriptFiles sessionId }
    let st3 := { st2 with sessions := alRemove st2.sessions sessionId }
    (st3, true)

/-- The provider-stream messages `sendMessage` consumes, reduced to the
three shapes its loop reacts to: an assistant text block, an assistant
tool-use block, and the terminal result message (`result` is empty when
the result message carries no truthy success text). -/
inductive StreamItem where
  | text (t : String)
  | toolUse (name : String)
  | resultMsg (result : String)
deriving DecidableEq

/-- How the provider stream ends: normal completion, an abort error
(cooperative cancellation observed), or any other thrown error.  The
`StreamItem` list of a turn is the prefix the loop processed before the
stream ended or the error was raised. -/
inductive TurnOutcome where
  | completed
  | abortError (msg : String)
  | failure (msg : String)
deriving DecidableEq

/-- The ids `generateId()` mints during one `sendMessage` call. -/
structure TurnIds where
  userId : String
  assistantId : String
  errorId : String
deriving DecidableEq

/-- The `{success, aborted}` part of `sendMessage`'s return value. -/
structure SendResult where
  success : Bool
  aborted : Bool
deriving DecidableEq

/-- Result of the embedded `sendMessage`: the post-call state, the events
emitted (in order), the return value (`Except.error` models a thrown
error), and whether the success path scheduled a queue drain
(`setImmediate(() => this.processNextInQueue(...))`). -/
structure SendOut where
  state : AgentState
  events : List AgentEvent
  ret : Except String SendResult
  drainScheduled : Bool
deriving DecidableEq

/-- Mutable state of `sendMessage`'s `for await (const msg of stream)`
loop: the session's message list, the growing `responseText`, whether
`currentAssistantMessage` exists, the collected tool uses, the events
emitted so far. -/
structure StreamFold where
  messages : List Message
  responseText : String
  hasAssistant : Bool
  toolUses : List String
  events : List AgentEvent
deriving DecidableEq

/-- One provider-stream message: a text block extends `responseText` and
creates or updates the single in-place assistant `Message`; a tool-use
block is recorded and emitted (the edit-intent guardrail body is disabled
in the source — it returns before any check); the result message moves a
truthy success text into the assistant message and emits `complete`. -/
def processItem (assistantId : String) (now : String) (sf : StreamFold) :
    StreamItem → StreamFold
  | StreamItem.text t =>
    let rt := sf.responseText ++ t
    if sf.hasAssistant then
      { sf with
        responseText := rt,
        messages := sf.messages.map
          (fun m => if m.id = assistantId then { m with content := rt } else m),
        events := sf.events ++ [AgentEvent.streamDelta assistantId rt] }
    else
      { sf with
        responseText := rt, hasAssistant := true,
        messages := sf.messages ++ [⟨assistantId, "assistant", rt, now, false⟩],
        events := sf.events ++ [AgentEvent.streamDelta assistantId rt] }
  | StreamItem.toolUse name =>
    { sf with
      toolUses := sf.toolUses ++ [name],
      events := sf.events ++ [AgentEvent.toolUse name] }
  | StreamItem.resultMsg r =>
    let sf2 :=
      if sf.hasAssistant && !r.isEmpty then
        { sf with
          responseText := r,
          messages := sf.messages.map
            (fun m => if m.id = assistantId then { m with content := r } else m) }
      else sf
    { sf2 with
      events := sf2.events ++
        [AgentEvent.complete (if sf2.hasAssistant then some assistantId else none)
          sf2.responseText sf2.toolUses] }

/-- The whole stream loop. -/
def processStream (assistantId : String) (now : String) (sf : StreamFold)
    (items : List StreamItem) : StreamFold :=
  items.foldl (processItem assistantId now) sf

/-- `sendMessage` from agent-service.ts.  External inputs: the minted ids,
the clock value `now`, the provider stream's processed prefix `items`, and
how the stream ended (`outcome`).  Control flow follows the source: missing
session throws; a running session throws `Agent is already processing a
message` before any mutation; otherwise the model override is applied, the
user message is appended, `started` and the user-message event are emitted,
the transcript is persisted, the stream is consumed, and the outcome is
handled — completion persists and schedules the queue drain; an abort error
returns `{success: false, aborted: true}` without appending anything; any
other error appends an error-flagged assistant message, persists, emits the
error event and rethrows.  (Context-file loading, image attachment reading
and the backend-native continuation token are elided externals.) -/
def sendMessage (st : AgentState) (sessionId message : String)
    (modelArg : Option String) (ids : TurnIds) (now : String)
    (items : List StreamItem) (outcome : TurnOutcome) : SendOut :=
  match alGet st.sessions sessionId with
  | none => ⟨st, [], Except.error ("Session " ++ sessionId ++ " not found"), false⟩
  | some session0 =>
    if session0.isRunning then
      ⟨st, [], Except.error "Agent is already processing a message", false⟩
    else
      let session1 := match modelArg with
        | some m => { session0 with model := some m }
        | none => session0
      let st1 := match modelArg with
        | some m =>
          updateSessionMeta { st with sessions := alSet st.sessions sessionId session1 }
            sessionId (fun md => { md with model := some m }) now
        | none => st
      let userMsg : Message := ⟨ids.userId, "user", message, now, false⟩
      let session2 := { session1 with
        messages := session1.messages ++ [userMsg],
        isRunning := true, hasAbortController := true }
      let st2 := { st1 with sessions := alSet st1.sessions sessionId session2 }
      let events0 := [AgentEvent.started, AgentEvent.userMessage userMsg]
      let st3 := saveSessionState st2 sessionId session2.messages now
      let sf := processStream ids.assistantId now
        ⟨session2.messages, "", false, [], []⟩ items
      let session3 := { session2 with messages := sf.messages }
      let st4 := { st3 with sessions := alSet st3.sessions sessionId session3 }
      let events1 := events0 ++ sf.events
      match outcome with
      | TurnOutcome.completed =>
        let st5 := saveSessionState st4 sessionId session3.messages now
        let session4 := { session3 with isRunning := false, hasAbortController := false }
        let st6 := { st5 with sessions := alSet st5.sessions sessionId session4 }
        ⟨st6, events1, Except.ok ⟨true, false⟩, true⟩
      | TurnOutcome.abortError _ =>
        let session4 := { session3 with isRunning := false, hasAbortController := false }
        let st5 := { st4 with sessions := alSet st4.sessions sessionId session4 }
        ⟨st5, events1, Except.ok ⟨false, true⟩, false⟩
      | TurnOutcome.failure emsg =>
        let errMsg : Message := ⟨ids.errorId, "assistant", "Error: " ++ emsg, now, true⟩
        let session4 := { session3 with
          isRunning := false, hasAbortController := false,
          messages := session3.messages ++ [errMsg] }
        let st5 := { st4 with sessions := alSet st4.sessions sessionId session4 }
        let st6 := saveSessionState st5 sessionId session4.messages now
        ⟨st6, events1 ++ [AgentEvent.errorEvent emsg], Except.error emsg, false⟩

/-- `addToQueue`: append the prompt, persist the queue file, emit one
`queue_updated` event carrying the full queue; returns the success flag. -/
def addToQueue (st : AgentState) (sessionId promptId message : String)
    (model : Option String) (now : String) :
    AgentState × List AgentEvent × Bool :=
  match alGet st.sessions sessionId with
  | none => (st, [], false)
  | some session =>
    let qp : QueuedPrompt := ⟨promptId, message, model, now⟩
    let session2 := { session with promptQueue := session.promptQueue ++ [qp] }
    let st1 := { st with sessions := alSet st.sessions sessionId session2 }
    let st2 := saveQueueState st1 sessionId session2.promptQueue
    (st2, [AgentEvent.queueUpdated session2.promptQueue], true)

/-- The external inputs of one drained turn, as a function of the prompt
the drain dequeues. -/
structure TurnScript where
  ids : TurnIds
  now : String
  items : List StreamItem
  outcome : TurnOutcome

/-- `processNextInQueue`: a no-op unless the session exists, its queue is
non-empty and it is idle; otherwise it dequeues the head, persists the
shortened queue, emits `queue_updated`, and invokes `sendMessage` with the
dequeued parameters — a thrown error is caught and reported as a
`queue_error` event.  The returned flag says whether the drained turn's
success path scheduled a further drain. -/
def processNextInQueue (st : AgentState) (sessionId : String)
    (script : QueuedPrompt → TurnScript) :
    AgentState × List AgentEvent × Bool :=
  match alGet st.sessions sessionId with
  | none => (st, [], false)
  | some session =>
    match session.promptQueue with
    | [] => (st, [], false)
    | nextPrompt :: rest =>
      if session.isRunning then (st, [], false)
      else
        let session2 := { session with promptQueue := rest }
        let st1 := { st with sessions := alSet st.sessions sessionId session2 }
        let st2 := saveQueueState st1 sessionId rest
        let evs := [AgentEvent.queueUpdated rest]
        let sc := script nextPrompt
        let out := sendMessage st2 sessionId nextPrompt.message nextPrompt.model
          sc.ids sc.now sc.items sc.outcome
        match out.ret with
        | Except.error e =>
          (out.state, evs ++ out.events ++ [AgentEvent.queueError e nextPrompt.id], false)
        | Except.ok _ => (out.state, evs ++ out.events, out.drainScheduled)

/-- The chain of deferred `processNextInQueue` invocations: each drained
turn that completes successfully schedules the next drain.  The fuel
bounds the chain (each drain shrinks the queue, so queue length + 1
suffices). -/
def drainLoop (script : QueuedPrompt → TurnScript) :
    Nat → AgentState → String → AgentState × List AgentEvent
  | 0, st, _ => (st, [])
  | fuel + 1, st, sessionId =>
    let (st2, evs, again) := processNextInQueue st sessionId script
    if again then
      let (st3, evs2) := drainLoop script fuel st2 sessionId
      (st3, evs ++ evs2)
    else (st2, evs)

/-- The tail of an in-flight `sendMessage` whose stream just completed:
persist the transcript, flip to idle, release the abort handle, then run
the deferred queue drain. -/
def finishActiveTurn (st : AgentState) (sessionId : String) (now : String)
    (script : QueuedPrompt → TurnScript) (fuel : Nat) :
    AgentState × List AgentEvent :=
  match alGet st.sessions sessionId with
  | none => (st, [])
  | some session =>
    let st1 := saveSessionState st sessionId session.messages now
    let session2 := { session with isRunning := false, hasAbortController := false }
    let st2 := { st1 with sessions := alSet st1.sessions sessionId session2 }
    drainLoop script fuel st2 sessionId

/-- Recognizer for `queue_updated` events (used to count them). -/
def isQueueUpdatedEvent : AgentEvent → Bool
  | AgentEvent.queueUpdated _ => true
  | _ => false

/-! ## Concrete fixtures (closed inputs for the witness theorems) -/

/-- A JSON parser that rejects everything. -/
def wParse : String → Except String Json := fun _ => Except.error "boom"

/-- Implementations where `Read` throws and the others succeed. -/
def wImpls : ToolImpls :=
  ⟨fun _ _ => Except.error "crash", fun _ _ => Except.ok ⟨"w", false⟩,
   fun _ _ => Except.ok ⟨"e", false⟩, fun _ _ => Except.ok ⟨"g", false⟩,
   fun _ _ => Except.ok ⟨"gr", false⟩, fun _ _ => Except.ok ⟨"b", false⟩,
   fun _ _ => Except.ok ⟨"f", false⟩⟩

/-- A concrete execution context. -/
def wCtx : ToolExecutionContext := ⟨"/repo"⟩

/-- An idle session with empty history and queue. -/
def wIdleSession : Session := ⟨[], false, false, "/repo", none, []⟩

/-- A session with an active turn (running flag and abort handle set). -/
def wRunningSession : Session := ⟨[], true, true, "/repo", none, []⟩

/-- Metadata entry for the fixture session. -/
def wMeta : SessionMetadata := ⟨"s1", "sess", "/repo", "t0", "t0", false, none⟩

/-- A queued follow-up prompt. -/
def wQP : QueuedPrompt := ⟨"q1", "follow up", none, "t1"⟩

/-- Registry state whose session `s1` is Active. -/
def wStateActive : AgentState := ⟨[("s1", wRunningSession)], [("s1", wMeta)], [], []⟩

/-- Registry state whose session `s1` is Idle. -/
def wStateIdle : AgentState := ⟨[("s1", wIdleSession)], [("s1", wMeta)], [], []⟩

/-- Registry state with metadata, transcript file and a non-empty queue
file for `s1`. -/
def wStateDelete : AgentState :=
  ⟨[("s1", wIdleSession)], [("s1", wMeta)], [("s1", [])], [("s1", [wQP])]⟩

/-- Concrete minted ids for one turn. -/
def wIds : TurnIds := ⟨"u1", "a1", "e1"⟩

/-- A streamed chunk carrying one complete tool-call fragment in slot 0
and a `tool_calls` finish reason. -/
def wCallChunk : StreamChunk :=
  ⟨[⟨some ⟨none, some [⟨0, some "c1", some "Read", some "x"⟩]⟩, some "tool_calls"⟩]⟩

/-! ## Theorems -/

/-- C9: applying the Edit tool to content `foo bar foo` with
`old_string = "foo"`, `new_string = "baz"`: with `replace_all = true` the
written content is `baz bar baz` with 2 reported replacements; with
`replace_all = false` only the first occurrence is replaced, giving
`baz bar foo` with 1 reported replacement. -/
theorem editTool_foo_bar_foo :
    editApply "foo bar foo" [⟨some "foo", some "baz", true⟩] =
      EditOutcome.written "baz bar baz" 2 ∧
    editApply "foo bar foo" [⟨some "foo", some "baz", false⟩] =
      EditOutcome.written "baz bar foo" 1 := by
  constructor <;> rfl

/-- If a call's name is not on the allowed-names list, the registry the
executor builds cannot contain it. -/
theorem registryGet_eq_none (impl : ToolImpls) (allowedTools : Option (List String))
    (name : String)
    (h : (allowedTools.getD DEFAULT_TOOL_NAMES).contains name = false) :
    registryGet impl allowedTools name = none := by
  simp only [registryGet, getToolDefinitions]
  rw [List.find?_eq_none]
  intro tool htool hbeq
  have hname : tool.name = name := by simpa using hbeq
  rw [List.mem_filter] at htool
  have h2 := htool.2
  rw [hname, h] at h2
  exact Bool.false_ne_true h2

/-- C3: `executeToolCalls` returns normally with exactly one result per
input call in input order, and the three failure modes — unknown tool,
argument string that fails JSON parsing, throwing tool implementation —
each yield an error-flagged result rather than a propagated exception
(the return type being a plain list is the "never throws" part). -/
theorem executeToolCalls_total_in_order_error_flagged
    (parse : String → Except String Json) (impl : ToolImpls)
    (context : ToolExecutionContext) (allowedTools : Option (List String))
    (calls : List ToolCall) :
    (executeToolCalls parse impl calls context allowedTools).length = calls.length ∧
    (∀ k : Nat, (executeToolCalls parse impl calls context allowedTools)[k]? =
      (calls[k]?).map (executeOneCall parse impl context allowedTools)) ∧
    (∀ call : ToolCall, registryGet impl allowedTools call.name = none →
      executeOneCall parse impl context allowedTools call =
        ⟨call.id, call.name, "Tool \"" ++ call.name ++ "\" is not available.", true⟩) ∧
    (∀ call : ToolCall, ∀ e : String, call.arguments.isEmpty = false →
      parse call.arguments = Except.error e →
      (executeOneCall parse impl context allowedTools call).isError = true) ∧
    (∀ call : ToolCall, ∀ tool : ToolDefinition, ∀ args : Json, ∀ e : String,
      registryGet impl allowedTools call.name = some tool →
      (if call.arguments.isEmpty then Except.ok (Json.obj [])
        else parse call.arguments) = Except.ok args →
      tool.execute args context = Except.error e →
      (executeOneCall parse impl context allowedTools call).isError = true) := by
  refine ⟨?_, ?_, ?_, ?_, ?_⟩
  · simp [executeToolCalls]
  · intro k
    simp [executeToolCalls]
  · intro call h
    simp [executeOneCall, h]
  · intro call e hemp hparse
    cases hreg : registryGet impl allowedTools call.name with
    | none => simp [executeOneCall, hreg]
    | some tool => simp [executeOneCall, hreg, hemp, hparse]
  · intro call tool args e hreg hargs hexec
    simp [executeOneCall, hreg, hargs, hexec]

/-- Closed instance of `executeToolCalls_total_in_order_error_flagged`:
a three-call batch hitting an unknown tool, a failing argument parse and a
throwing implementation, each discharged at a concrete input. -/
theorem executeToolCalls_total_in_order_error_flagged_witness :
    (executeToolCalls wParse wImpls
        [⟨"1", "Nope", ""⟩, ⟨"2", "Read", "x"⟩, ⟨"3", "Read", ""⟩]
        wCtx none).length = 3 ∧
    executeOneCall wParse wImpls wCtx none ⟨"1", "Nope", ""⟩ =
      ⟨"1", "Nope", "Tool \"Nope\" is not available.", true⟩ ∧
    (executeOneCall wParse wImpls wCtx none ⟨"2", "Read", "x"⟩).isError = true ∧
    (executeOneCall wParse wImpls wCtx none ⟨"3", "Read", ""⟩).isError = true := by
  refine ⟨?_, ?_, ?_, ?_⟩
  · exact (executeToolCalls_total_in_order_error_flagged wParse wImpls wCtx none
      [⟨"1", "Nope", ""⟩, ⟨"2", "Read", "x"⟩, ⟨"3", "Read", ""⟩]).1
  · exact (executeToolCalls_total_in_order_error_flagged wParse wImpls wCtx none
      []).2.2.1 ⟨"1", "Nope", ""⟩ rfl
  · exact (executeToolCalls_total_in_order_error_flagged wParse wImpls wCtx none
      []).2.2.2.1 ⟨"2", "Read", "x"⟩ "boom" rfl rfl
  · exact (executeToolCalls_total_in_order_error_flagged wParse wImpls wCtx none
      []).2.2.2.2 ⟨"3", "Read", ""⟩ ⟨"Read", wImpls.read⟩ (Json.obj []) "crash"
      rfl rfl rfl

/-- C7: a tool call whose name is not on the allowed-tools list (or, when
that list is absent, not in the default catalog) never reaches any tool
implementation: its result is exactly the error-flagged "not available"
output, for every batch position, and the output is independent of the
installed implementations. -/
theorem toolCalls_confined_to_allowed_set
    (parse : String → Except String Json) (impl : ToolImpls)
    (context : ToolExecutionContext) (allowedTools : Option (List String))
    (call : ToolCall)
    (h : (allowedTools.getD DEFAULT_TOOL_NAMES).contains call.name = false) :
    executeOneCall parse impl context allowedTools call =
      ⟨call.id, call.name, "Tool \"" ++ call.name ++ "\" is not available.", true⟩ ∧
    (∀ (impl2 : ToolImpls) (parse2 : String → Except String Json)
        (context2 : ToolExecutionContext),
      executeOneCall parse2 impl2 context2 allowedTools call =
        executeOneCall parse impl context allowedTools call) ∧
    (∀ (calls : List ToolCall) (k : Nat), calls[k]? = some call →
      (executeToolCalls parse impl calls context allowedTools)[k]? =
        some ⟨call.id, call.name, "Tool \"" ++ call.name ++ "\" is not available.", true⟩) := by
  have hone : ∀ (impl2 : ToolImpls) (parse2 : String → Except String Json)
      (context2 : ToolExecutionContext),
      executeOneCall parse2 impl2 context2 allowedTools call =
        ⟨call.id, call.name, "Tool \"" ++ call.name ++ "\" is not available.", true⟩ := by
    intro impl2 parse2 context2
    simp [executeOneCall, registryGet_eq_none impl2 allowedTools call.name h]
  refine ⟨hone impl parse context, ?_, ?_⟩
  · intro impl2 parse2 context2
    rw [hone impl parse context, hone impl2 parse2 context2]
  · intro calls k hk
    simp [executeToolCalls, hk, hone impl parse context]

/-- Closed instance of `toolCalls_confined_to_allowed_set`: with allowed
tools `["Read"]`, a `Bash` call (which is in the catalog but not allowed)
yields only the "not available" result, whatever the implementations do. -/
theorem toolCalls_confined_to_allowed_set_witness :
    executeOneCall wParse wImpls wCtx (some ["Read"]) ⟨"9", "Bash", "rm -rf /"⟩ =
      ⟨"9", "Bash", "Tool \"Bash\" is not available.", true⟩ := by
  exact (toolCalls_confined_to_allowed_set wParse wImpls wCtx (some ["Read"])
    ⟨"9", "Bash", "rm -rf /"⟩ (by decide)).1

/-- Reading back the key just written. -/
theorem alGet_alSet_self {α : Type} (m : List (String × α)) (k : String) (v : α) :
    alGet (alSet m k v) k = some v := by
  induction m with
  | nil => simp [alSet, alGet]
  | cons p rest ih =>
    by_cases h : p.1 = k
    · simp [alSet, alGet, h]
    · simp [alSet, alGet, h, ih]

/-- Writing one key leaves every other key unchanged. -/
theorem alGet_alSet_ne {α : Type} (m : List (String × α)) (k k2 : String) (v : α)
    (h : k2 ≠ k) : alGet (alSet m k v) k2 = alGet m k2 := by
  have h2 : ¬(k = k2) := fun hx => h hx.symm
  induction m with
  | nil => simp [alSet, alGet, h2]
  | cons p rest ih =>
    by_cases hp : p.1 = k
    · simp [alSet, alGet, hp, h2]
    · by_cases hp2 : p.1 = k2
      · simp [alSet, alGet, hp, hp2, h]
      · simp [alSet, alGet, hp, hp2, ih]

/-- A removed key reads back as absent. -/
theorem alGet_alRemove {α : Type} (m : List (String × α)) (k : String) :
    alGet (alRemove m k) k = none := by
  induction m with
  | nil => rfl
  | cons p rest ih =>
    by_cases h : p.1 = k
    · simpa [alRemove, List.filter_cons, h] using ih
    · simpa [alRemove, List.filter_cons, alGet, h] using ih

/-- C1: `sendMessage` on a conversation whose running flag is set fails
with the already-running error and changes nothing: the returned state is
the input state (so no message is appended, the session model is not
updated, and no file store changes), and no event is emitted. -/
theorem send_on_active_rejected (st : AgentState) (sessionId message : String)
    (modelArg : Option String) (ids : TurnIds) (now : String)
    (items : List StreamItem) (outcome : TurnOutcome) (s : Session)
    (hs : alGet st.sessions sessionId = some s) (hrun : s.isRunning = true) :
    sendMessage st sessionId message modelArg ids now items outcome =
      ⟨st, [], Except.error "Agent is already processing a message", false⟩ := by
  simp [sendMessage, hs, hrun]

/-- Closed instance of `send_on_active_rejected` at a concrete Active
state. -/
theorem send_on_active_rejected_witness :
    sendMessage wStateActive "s1" "hello" none wIds "t2" [] TurnOutcome.completed =
      ⟨wStateActive, [], Except.error "Agent is already processing a message", false⟩ :=
  send_on_active_rejected wStateActive "s1" "hello" none wIds "t2" []
    TurnOutcome.completed wRunningSession rfl rfl

/-- C8 counterexample: deleting an existing conversation returns `true`
and removes its metadata and transcript, but its queue file survives the
deletion — refuting the claim that the queue file is removed together with
them. -/
theorem deleteSession_leaves_queue_file :
    (deleteSession wStateDelete "s1").2 = true ∧
    alGet (deleteSession wStateDelete "s1").1.queueFiles "s1" = some [wQP] ∧
    ¬alGet (deleteSession wStateDelete "s1").1.queueFiles "s1" = none := by
  refine ⟨rfl, rfl, ?_⟩
  decide

/-- C8 (amended): on an existing conversation id, `deleteSession` removes
the metadata entry and the transcript file and evicts the in-memory
session, returning `true` — while the queue-file store is untouched; on a
non-existent id it returns `false` and deletes nothing. -/
theorem deleteSession_amended (st : AgentState) (sessionId : String)
    (md : SessionMetadata) (h : alGet st.metadata sessionId = some md) :
    (deleteSession st sessionId).2 = true ∧
    alGet (deleteSession st sessionId).1.metadata sessionId = none ∧
    alGet (deleteSession st sessionId).1.transcriptFiles sessionId = none ∧
    alGet (deleteSession st sessionId).1.sessions sessionId = none ∧
    (deleteSession st sessionId).1.queueFiles = st.queueFiles ∧
    (∀ st2 : AgentState, alGet st2.metadata sessionId = none →
      deleteSession st2 sessionId = (st2, false)) := by
  refine ⟨?_, ?_, ?_, ?_, ?_, ?_⟩
  · simp [deleteSession, h]
  · simp [deleteSession, h, alGet_alRemove]
  · simp [deleteSession, h, alGet_alRemove]
  · simp [deleteSession, h, alGet_alRemove]
  · simp [deleteSession, h]
  · intro st2 h2
    simp [deleteSession, h2]

/-- Closed instance of `deleteSession_amended` at the concrete state. -/
theorem deleteSession_amended_witness :
    (deleteSession wStateDelete "s1").2 = true ∧
    alGet (deleteSession wStateDelete "s1").1.metadata "s1" = none ∧
    alGet (deleteSession wStateDelete "s1").1.sessions "s1" = none :=
  ⟨(deleteSession_amended wStateDelete "s1" wMeta rfl).1,
   (deleteSession_amended wStateDelete "s1" wMeta rfl).2.1,
   (deleteSession_amended wStateDelete "s1" wMeta rfl).2.2.2.1⟩

/-- One stream message appends only stream/tool-use/complete events. -/
theorem processItem_events_shape (aid now : String) (sf : StreamFold) (it : StreamItem) :
    ∃ extra : List AgentEvent,
      (processItem aid now sf it).events = sf.events ++ extra ∧
      (∀ q : List QueuedPrompt, AgentEvent.queueUpdated q ∉ extra) := by
  cases it with
  | text t =>
    by_cases hA : sf.hasAssistant = true
    · exact ⟨[AgentEvent.streamDelta aid (sf.responseText ++ t)],
        by simp [processItem, hA], by simp⟩
    · exact ⟨[AgentEvent.streamDelta aid (sf.responseText ++ t)],
        by simp [processItem, hA], by simp⟩
  | toolUse name =>
    exact ⟨[AgentEvent.toolUse name], by simp [processItem], by simp⟩
  | resultMsg r =>
    by_cases hc : (sf.hasAssistant && !r.isEmpty) = true
    · exact ⟨[AgentEvent.complete (if sf.hasAssistant then some aid else none)
        r sf.toolUses], by simp [processItem, hc], by simp⟩
    · exact ⟨[AgentEvent.complete (if sf.hasAssistant then some aid else none)
        sf.responseText sf.toolUses], by simp [processItem, hc], by simp⟩

/-- The stream loop never emits a queue event. -/
theorem processStream_no_queue_events (aid now : String) (items : List StreamItem)
    (sf : StreamFold) (q : List QueuedPrompt)
    (h : AgentEvent.queueUpdated q ∈ (processStream aid now sf items).events) :
    AgentEvent.queueUpdated q ∈ sf.events := by
  induction items generalizing sf with
  | nil => exact h
  | cons it rest ih =>
    have h2 : AgentEvent.queueUpdated q ∈ (processItem aid now sf it).events := ih _ h
    obtain ⟨extra, heq, hnq⟩ := processItem_events_shape aid now sf it
    rw [heq] at h2
    rcases List.mem_append.mp h2 with h3 | h3
    · exact h3
    · exact absurd h3 (hnq q)

/-- One stream message introduces no error-flagged message: any
error-flagged message afterwards has an error-flagged witness before. -/
theorem processItem_messages_error (aid now : String) (sf : StreamFold)
    (it : StreamItem) (m : Message)
    (hm : m ∈ (processItem aid now sf it).messages) (he : m.isError = true) :
    ∃ m0 ∈ sf.messages, m0.isError = true := by
  cases it with
  | text t =>
    by_cases hA : sf.hasAssistant = true
    · simp only [processItem, hA, if_true, List.mem_map] at hm
      obtain ⟨m0, hm0, hf⟩ := hm
      by_cases hid : m0.id = aid
      · rw [if_pos hid] at hf
        rw [← hf] at he
        exact ⟨m0, hm0, he⟩
      · rw [if_neg hid] at hf
        rw [hf] at hm0
        exact ⟨m, hm0, he⟩
    · simp only [processItem, hA, if_false, Bool.false_eq_true, List.mem_append,
        List.mem_singleton] at hm
      rcases hm with hm | hm
      · exact ⟨m, hm, he⟩
      · rw [hm] at he
        simp at he
  | toolUse name =>
    exact ⟨m, by simpa [processItem] using hm, he⟩
  | resultMsg r =>
    by_cases hc : (sf.hasAssistant && !r.isEmpty) = true
    · simp only [processItem, hc, if_true, List.mem_map] at hm
      obtain ⟨m0, hm0, hf⟩ := hm
      by_cases hid : m0.id = aid
      · rw [if_pos hid] at hf
        rw [← hf] at he
        exact ⟨m0, hm0, he⟩
      · rw [if_neg hid] at hf
        rw [hf] at hm0
        exact ⟨m, hm0, he⟩
    · refine ⟨m, ?_, he⟩
      simpa [processItem, hc] using hm

/-- The whole stream loop introduces no error-flagged message. -/
theorem processStream_messages_error (aid now : String) (items : List StreamItem)
    (sf : StreamFold) (m : Message)
    (hm : m ∈ (processStream aid now sf items).messages) (he : m.isError = true) :
    ∃ m0 ∈ sf.messages, m0.isError = true := by
  induction items generalizing sf with
  | nil => exact ⟨m, hm, he⟩
  | cons it rest ih =>
    obtain ⟨m1, hm1, he1⟩ := ih (processItem aid now sf it) hm
    exact processItem_messages_error aid now sf it m1 hm1 he1

/-- A message whose id is not the assistant id survives one stream
message untouched. -/
theorem processItem_messages_keep (aid now : String) (sf : StreamFold)
    (it : StreamItem) (m : Message)
    (hm : m ∈ sf.messages) (hid : ¬m.id = aid) :
    m ∈ (processItem aid now sf it).messages := by
  cases it with
  | text t =>
    by_cases hA : sf.hasAssistant = true
    · simp only [processItem, hA, if_true, List.mem_map]
      exact ⟨m, hm, by rw [if_neg hid]⟩
    · simp only [processItem, hA, if_false, Bool.false_eq_true, List.mem_append]
      exact Or.inl hm
  | toolUse name =>
    simpa [processItem] using hm
  | resultMsg r =>
    by_cases hc : (sf.hasAssistant && !r.isEmpty) = true
    · simp only [processItem, hc, if_true, List.mem_map]
      exact ⟨m, hm, by rw [if_neg hid]⟩
    · simpa [processItem, hc] using hm

/-- A message whose id is not the assistant id survives the stream loop. -/
theorem processStream_messages_keep (aid now : String) (items : List StreamItem)
    (sf : StreamFold) (m : Message)
    (hm : m ∈ sf.messages) (hid : ¬m.id = aid) :
    m ∈ (processStream aid now sf items).messages := by
  induction items generalizing sf with
  | nil => exact hm
  | cons it rest ih =>
    exact ih (processItem aid now sf it) (processItem_messages_keep aid now sf it m hm hid)

/-- C5 counterexample: at a concrete Idle conversation, a `send` whose
stream ends with an abort error returns `{success: false, aborted: true}`,
not the claimed `{success: true, aborted: true}`. -/
theorem send_abort_success_flag_counterexample :
    (sendMessage wStateIdle "s1" "hi" none wIds "t2" []
      (TurnOutcome.abortError "The operation was aborted")).ret =
      Except.ok ⟨false, true⟩ ∧
    ¬(sendMessage wStateIdle "s1" "hi" none wIds "t2" []
      (TurnOutcome.abortError "The operation was aborted")).ret =
      Except.ok ⟨true, true⟩ := by
  refine ⟨rfl, ?_⟩
  decide

/-- C5 (amended): `stop` on an Active conversation flips it to Idle and
clears the abort handle, reporting success; the interrupted `send`
returns `{success: false, aborted: true}` (a distinguished non-error
outcome: the return is `Except.ok`, not a thrown error), leaves the
conversation Idle, and appends no error-flagged message — any
error-flagged message afterwards was already in the history. -/
theorem stop_abort_amended (st : AgentState) (sessionId message : String)
    (modelArg : Option String) (ids : TurnIds) (now : String)
    (items : List StreamItem) (emsg : String) (s : Session)
    (hs : alGet st.sessions sessionId = some s) (hnr : s.isRunning = false) :
    (sendMessage st sessionId message modelArg ids now items
      (TurnOutcome.abortError emsg)).ret = Except.ok ⟨false, true⟩ ∧
    (∀ s2 : Session,
      alGet (sendMessage st sessionId message modelArg ids now items
        (TurnOutcome.abortError emsg)).state.sessions sessionId = some s2 →
      s2.isRunning = false ∧
      (∀ m : Message, m ∈ s2.messages → m.isError = true →
        ∃ m0 ∈ s.messages, m0.isError = true)) ∧
    (∀ (st2 : AgentState) (s2 : Session),
      alGet st2.sessions sessionId = some s2 → s2.hasAbortController = true →
      (stopExecution st2 sessionId).2.1 = true ∧
      ∃ s3 : Session,
        alGet (stopExecution st2 sessionId).1.sessions sessionId = some s3 ∧
        s3.isRunning = false ∧ s3.hasAbortController = false) := by
  refine ⟨?_, ?_, ?_⟩
  · cases modelArg with
    | none => simp [sendMessage, hs, hnr]
    | some mv => simp [sendMessage, hs, hnr]
  · intro s2 hset
    cases modelArg with
    | none =>
      simp only [sendMessage, hs, hnr, Bool.false_eq_true, if_false] at hset
      rw [alGet_alSet_self] at hset
      injection hset with hset
      rw [← hset]
      refine ⟨rfl, ?_⟩
      intro m hm he
      have h2 := processStream_messages_error ids.assistantId now items _ m hm he
      obtain ⟨m0, hm0, he0⟩ := h2
      rcases List.mem_append.mp hm0 with h3 | h3
      · exact ⟨m0, h3, he0⟩
      · rw [List.mem_singleton] at h3
        rw [h3] at he0
        simp at he0
    | some mv =>
      simp only [sendMessage, hs, hnr, Bool.false_eq_true, if_false] at hset
      rw [alGet_alSet_self] at hset
      injection hset with hset
      rw [← hset]
      refine ⟨rfl, ?_⟩
      intro m hm he
      have h2 := processStream_messages_error ids.assistantId now items _ m hm he
      obtain ⟨m0, hm0, he0⟩ := h2
      rcases List.mem_append.mp hm0 with h3 | h3
      · exact ⟨m0, h3, he0⟩
      · rw [List.mem_singleton] at h3
        rw [h3] at he0
        simp at he0
  · intro st2 s2 h1 h2
    refine ⟨by simp [stopExecution, h1, h2], ?_⟩
    refine ⟨⟨s2.messages, false, false, s2.workingDirectory, s2.model, s2.promptQueue⟩, ?_, rfl, rfl⟩
    simp [stopExecution, h1, h2, alGet_alSet_self]

/-- Closed instance of `stop_abort_amended` at the concrete Idle state. -/
theorem stop_abort_amended_witness :
    (sendMessage wStateIdle "s1" "hi" none wIds "t2" []
      (TurnOutcome.abortError "aborted")).ret = Except.ok ⟨false, true⟩ ∧
    (stopExecution wStateActive "s1").2.1 = true :=
  ⟨(stop_abort_amended wStateIdle "s1" "hi" none wIds "t2" [] "aborted"
      wIdleSession rfl rfl).1,
   ((stop_abort_amended wStateIdle "s1" "hi" none wIds "t2" [] "aborted"
      wIdleSession rfl rfl).2.2 wStateActive wRunningSession rfl rfl).1⟩

/-- Touching a metadata timestamp leaves the session map unchanged. -/
theorem updateSessionTimestamp_sessions (st : AgentState) (sessionId now : String) :
    (updateSessionTimestamp st sessionId now).sessions = st.sessions := by
  unfold updateSessionTimestamp
  cases alGet st.metadata sessionId <;> rfl

/-- Touching a metadata timestamp leaves the queue files unchanged. -/
theorem updateSessionTimestamp_queueFiles (st : AgentState) (sessionId now : String) :
    (updateSessionTimestamp st sessionId now).queueFiles = st.queueFiles := by
  unfold updateSessionTimestamp
  cases alGet st.metadata sessionId <;> rfl

/-- Persisting a transcript leaves the session map unchanged. -/
theorem saveSessionState_sessions (st : AgentState) (sessionId : String)
    (messages : List Message) (now : String) :
    (saveSessionState st sessionId messages now).sessions = st.sessions := by
  unfold saveSessionState
  rw [updateSessionTimestamp_sessions]

/-- Persisting a transcript leaves the queue files unchanged. -/
theorem saveSessionState_queueFiles (st : AgentState) (sessionId : String)
    (messages : List Message) (now : String) :
    (saveSessionState st sessionId messages now).queueFiles = st.queueFiles := by
  unfold saveSessionState
  rw [updateSessionTimestamp_queueFiles]

/-- A metadata merge leaves the session map unchanged. -/
theorem updateSessionMeta_sessions (st : AgentState) (sessionId : String)
    (upd : SessionMetadata → SessionMetadata) (now : String) :
    (updateSessionMeta st sessionId upd now).sessions = st.sessions := by
  unfold updateSessionMeta
  cases alGet st.metadata sessionId <;> rfl

/-- A metadata merge leaves the queue files unchanged. -/
theorem updateSessionMeta_queueFiles (st : AgentState) (sessionId : String)
    (upd : SessionMetadata → SessionMetadata) (now : String) :
    (updateSessionMeta st sessionId upd now).queueFiles = st.queueFiles := by
  unfold updateSessionMeta
  cases alGet st.metadata sessionId <;> rfl

/-- `sendMessage` never emits a queue event. -/
theorem sendMessage_no_queue_updated (st : AgentState) (sessionId message : String)
    (modelArg : Option String) (ids : TurnIds) (now : String)
    (items : List StreamItem) (outcome : TurnOutcome) (q : List QueuedPrompt) :
    AgentEvent.queueUpdated q ∉
      (sendMessage st sessionId message modelArg ids now items outcome).events := by
  intro h
  cases hget : alGet st.sessions sessionId with
  | none => simp [sendMessage, hget] at h
  | some s0 =>
    cases hrun : s0.isRunning with
    | true => simp [sendMessage, hget, hrun] at h
    | false =>
      cases modelArg <;> cases outcome <;>
        (simp [sendMessage, hget, hrun] at h
         exact absurd (processStream_no_queue_events _ _ _ _ _ h) (by simp))

/-- Shape of a `sendMessage` run on an idle session, for every stream and
outcome: the stored session is idle again, its queue is untouched, the
user message was appended (when the minted ids are distinct), and the
queue-file store is untouched. -/
theorem sendMessage_run_shape (st : AgentState) (sessionId message : String)
    (modelArg : Option String) (ids : TurnIds) (now : String)
    (items : List StreamItem) (outcome : TurnOutcome) (s : Session)
    (hs : alGet st.sessions sessionId = some s) (hnr : s.isRunning = false)
    (hids : ¬ids.userId = ids.assistantId) :
    ∃ s2 : Session,
      alGet (sendMessage st sessionId message modelArg ids now items
        outcome).state.sessions sessionId = some s2 ∧
      s2.promptQueue = s.promptQueue ∧
      s2.isRunning = false ∧
      (⟨ids.userId, "user", message, now, false⟩ : Message) ∈ s2.messages ∧
      (sendMessage st sessionId message modelArg ids now items
        outcome).state.queueFiles = st.queueFiles := by
  have hmem : ∀ base : List Message,
      (⟨ids.userId, "user", message, now, false⟩ : Message) ∈
        (processStream ids.assistantId now
          ⟨base ++ [⟨ids.userId, "user", message, now, false⟩], "", false, [], []⟩
          items).messages := by
    intro base
    exact processStream_messages_keep ids.assistantId now items _ _
      (by simp) (by simpa using hids)
  cases modelArg with
  | none =>
    cases outcome with
    | completed =>
      simp only [sendMessage, hs, hnr, Bool.false_eq_true, if_false]
      refine ⟨_, alGet_alSet_self _ _ _, by simp, by simp, by simpa using hmem s.messages, ?_⟩
      simp [saveSessionState_queueFiles]
    | abortError emsg =>
      simp only [sendMessage, hs, hnr, Bool.false_eq_true, if_false]
      refine ⟨_, alGet_alSet_self _ _ _, by simp, by simp, by simpa using hmem s.messages, ?_⟩
      simp [saveSessionState_queueFiles]
    | failure emsg =>
      simp only [sendMessage, hs, hnr, Bool.false_eq_true, if_false]
      rw [saveSessionState_sessions]
      refine ⟨_, alGet_alSet_self _ _ _, by simp, by simp, ?_, ?_⟩
      · simp only [List.mem_append]
        exact Or.inl (by simpa using hmem s.messages)
      · simp [saveSessionState_queueFiles]
  | some mv =>
    cases outcome with
    | completed =>
      simp only [sendMessage, hs, hnr, Bool.false_eq_true, if_false]
      refine ⟨_, alGet_alSet_self _ _ _, by simp, by simp, by simpa using hmem s.messages, ?_⟩
      simp [saveSessionState_queueFiles, updateSessionMeta_queueFiles]
    | abortError emsg =>
      simp only [sendMessage, hs, hnr, Bool.false_eq_true, if_false]
      refine ⟨_, alGet_alSet_self _ _ _, by simp, by simp, by simpa using hmem s.messages, ?_⟩
      simp [saveSessionState_queueFiles, updateSessionMeta_queueFiles]
    | failure emsg =>
      simp only [sendMessage, hs, hnr, Bool.false_eq_true, if_false]
      rw [saveSessionState_sessions]
      refine ⟨_, alGet_alSet_self _ _ _, by simp, by simp, ?_, ?_⟩
      · simp only [List.mem_append]
        exact Or.inl (by simpa using hmem s.messages)
      · simp [saveSessionState_queueFiles, updateSessionMeta_queueFiles]

/-- The events of a `sendMessage` run contain no `queue_updated` entry. -/
theorem sendMessage_filter_queue (st : AgentState) (sessionId message : String)
    (modelArg : Option String) (ids : TurnIds) (now : String)
    (items : List StreamItem) (outcome : TurnOutcome) :
    ((sendMessage st sessionId message modelArg ids now items outcome).events).filter
      isQueueUpdatedEvent = [] := by
  rw [List.filter_eq_nil_iff]
  intro e he
  cases e <;> simp [isQueueUpdatedEvent]
  case queueUpdated q =>
    exact sendMessage_no_queue_updated st sessionId message modelArg ids now items
      outcome q he

/-- A drain over an idle session with a single queued prompt: one
`queue_updated` event (the dequeue, carrying the emptied queue), the
emptied queue persisted to the queue file, and the dequeued prompt's
message delivered as a user message of the drained turn. -/
theorem processNextInQueue_singleton (st : AgentState) (sessionId : String)
    (script : QueuedPrompt → TurnScript) (s : Session) (qp : QueuedPrompt)
    (hs : alGet st.sessions sessionId = some s)
    (hrun : s.isRunning = false)
    (hq : s.promptQueue = [qp])
    (hids : ∀ qp2 : QueuedPrompt,
      ¬(script qp2).ids.userId = (script qp2).ids.assistantId) :
    ((processNextInQueue st sessionId script).2.1).filter isQueueUpdatedEvent =
      [AgentEvent.queueUpdated []] ∧
    alGet (processNextInQueue st sessionId script).1.queueFiles sessionId = some [] ∧
    (∃ s2 : Session,
      alGet (processNextInQueue st sessionId script).1.sessions sessionId = some s2 ∧
      s2.promptQueue = [] ∧ s2.isRunning = false ∧
      ∃ m ∈ s2.messages, m.role = "user" ∧ m.content = qp.message) := by
  have hbranch : processNextInQueue st sessionId script =
      (let st2 := saveQueueState
        { st with sessions := alSet st.sessions sessionId ({ s with promptQueue := [] }) }
        sessionId [];
      let out := sendMessage st2 sessionId qp.message qp.model (script qp).ids
        (script qp).now (script qp).items (script qp).outcome;
      match out.ret with
      | Except.error e =>
        (out.state, [AgentEvent.queueUpdated []] ++ out.events ++
          [AgentEvent.queueError e qp.id], false)
      | Except.ok _ =>
        (out.state, [AgentEvent.queueUpdated []] ++ out.events, out.drainScheduled)) := by
    simp only [processNextInQueue, hs, hq, hrun, Bool.false_eq_true, if_false]
  rw [hbranch]
  simp only []
  have hs2 : alGet (saveQueueState
      { st with sessions := alSet st.sessions sessionId ({ s with promptQueue := [] }) }
      sessionId []).sessions sessionId = some ({ s with promptQueue := [] }) := by
    simp only [saveQueueState]
    exact alGet_alSet_self _ _ _
  have hnr2 : ({ s with promptQueue := [] } : Session).isRunning = false := hrun
  obtain ⟨sOut, hgOut, hqOut, hrOut, hmOut, hqfOut⟩ :=
    sendMessage_run_shape (saveQueueState
      { st with sessions := alSet st.sessions sessionId ({ s with promptQueue := [] }) }
      sessionId []) sessionId qp.message qp.model (script qp).ids (script qp).now
      (script qp).items (script qp).outcome ({ s with promptQueue := [] }) hs2 hnr2
      (hids qp)
  have hqfile : alGet (sendMessage (saveQueueState
      { st with sessions := alSet st.sessions sessionId ({ s with promptQueue := [] }) }
      sessionId []) sessionId qp.message qp.model (script qp).ids (script qp).now
      (script qp).items (script qp).outcome).state.queueFiles sessionId = some [] := by
    rw [hqfOut]
    simp only [saveQueueState]
    exact alGet_alSet_self _ _ _
  have hfil := sendMessage_filter_queue (saveQueueState
      { st with sessions := alSet st.sessions sessionId ({ s with promptQueue := [] }) }
      sessionId []) sessionId qp.message qp.model (script qp).ids (script qp).now
      (script qp).items (script qp).outcome
  cases hret : (sendMessage (saveQueueState
      { st with sessions := alSet st.sessions sessionId ({ s with promptQueue := [] }) }
      sessionId []) sessionId qp.message qp.model (script qp).ids (script qp).now
      (script qp).items (script qp).outcome).ret with
  | error e =>
    refine ⟨?_, hqfile, sOut, hgOut, by simpa [hq] using hqOut, hrOut,
      ⟨(⟨(script qp).ids.userId, "user", qp.message, (script qp).now, false⟩ : Message),
        hmOut, rfl, rfl⟩⟩
    simp [List.filter_append, hfil, isQueueUpdatedEvent]
  | ok r =>
    refine ⟨?_, hqfile, sOut, hgOut, by simpa [hq] using hqOut, hrOut,
      ⟨(⟨(script qp).ids.userId, "user", qp.message, (script qp).now, false⟩ : Message),
        hmOut, rfl, rfl⟩⟩
    simp [List.filter_append, hfil, isQueueUpdatedEvent]

/-- A drain over a session with an empty queue is a no-op. -/
theorem processNextInQueue_empty (st : AgentState) (sessionId : String)
    (script : QueuedPrompt → TurnScript) (s : Session)
    (hs : alGet st.sessions sessionId = some s) (hq : s.promptQueue = []) :
    processNextInQueue st sessionId script = (st, [], false) := by
  simp [processNextInQueue, hs, hq]

/-- The full deferred-drain chain (fuel 2) over an idle session holding a
single queued prompt: one dequeue event, emptied queue persisted, drained
prompt delivered; a second drain pass finds the queue empty and does
nothing. -/
theorem drainLoop_two_singleton (st : AgentState) (sessionId : String)
    (script : QueuedPrompt → TurnScript) (s : Session) (qp : QueuedPrompt)
    (hs : alGet st.sessions sessionId = some s)
    (hrun : s.isRunning = false)
    (hq : s.promptQueue = [qp])
    (hids : ∀ qp2 : QueuedPrompt,
      ¬(script qp2).ids.userId = (script qp2).ids.assistantId) :
    ((drainLoop script 2 st sessionId).2).filter isQueueUpdatedEvent =
      [AgentEvent.queueUpdated []] ∧
    alGet (drainLoop script 2 st sessionId).1.queueFiles sessionId = some [] ∧
    (∃ s2 : Session,
      alGet (drainLoop script 2 st sessionId).1.sessions sessionId = some s2 ∧
      ∃ m ∈ s2.messages, m.role = "user" ∧ m.content = qp.message) := by
  obtain ⟨hfil, hqf, s2, hgs2, hq2, hr2, hm2⟩ :=
    processNextInQueue_singleton st sessionId script s qp hs hrun hq hids
  rcases hres : processNextInQueue st sessionId script with ⟨stR, evsR, againR⟩
  rw [hres] at hfil hqf hgs2
  simp only at hfil hqf hgs2
  cases againR with
  | false =>
    simp only [drainLoop, hres]
    exact ⟨hfil, hqf, s2, hgs2, hm2⟩
  | true =>
    have hnext : processNextInQueue stR sessionId script = (stR, [], false) :=
      processNextInQueue_empty stR sessionId script s2 hgs2 hq2
    simp only [drainLoop, hres, hnext]
    refine ⟨?_, hqf, s2, hgs2, hm2⟩
    simpa using hfil

/-- C6: with exactly one prompt enqueued while a turn is Active, once that
turn completes the deferred drain dequeues the head while Idle, persists
the shortened (empty) queue, and runs the queued prompt as a new turn
without any caller-side `send`; across the whole scenario `queue_updated`
is emitted exactly twice — once on enqueue (with the one-element queue)
and once on dequeue (with the emptied queue). -/
theorem queue_single_item_drains (st : AgentState) (sessionId promptId message : String)
    (model : Option String) (now now2 : String) (script : QueuedPrompt → TurnScript)
    (s : Session)
    (hs : alGet st.sessions sessionId = some s)
    (hrun : s.isRunning = true)
    (hq : s.promptQueue = [])
    (hids : ∀ qp2 : QueuedPrompt,
      ¬(script qp2).ids.userId = (script qp2).ids.assistantId) :
    (addToQueue st sessionId promptId message model now).2.2 = true ∧
    ((addToQueue st sessionId promptId message model now).2.1 ++
      (finishActiveTurn (addToQueue st sessionId promptId message model now).1
        sessionId now2 script 2).2).filter isQueueUpdatedEvent =
      [AgentEvent.queueUpdated [⟨promptId, message, model, now⟩],
        AgentEvent.queueUpdated []] ∧
    alGet (finishActiveTurn (addToQueue st sessionId promptId message model now).1
      sessionId now2 script 2).1.queueFiles sessionId = some [] ∧
    (∃ s2 : Session,
      alGet (finishActiveTurn (addToQueue st sessionId promptId message model now).1
        sessionId now2 script 2).1.sessions sessionId = some s2 ∧
      ∃ m ∈ s2.messages, m.role = "user" ∧ m.content = message) := by
  set qp : QueuedPrompt := ⟨promptId, message, model, now⟩ with hqp
  set sA : Session := { s with promptQueue := [qp] } with hsA
  set stQ : AgentState := saveQueueState { st with sessions := alSet st.sessions sessionId sA } sessionId [qp] with hstQ
  have hstep1 : addToQueue st sessionId promptId message model now =
      (stQ, [AgentEvent.queueUpdated [qp]], true) := by
    rw [hstQ, hsA, hqp]
    simp [addToQueue, hs, hq]
  have hgQ : alGet stQ.sessions sessionId = some sA := by
    rw [hstQ]
    simp only [saveQueueState]
    exact alGet_alSet_self _ _ _
  set sB : Session := { sA with isRunning := false, hasAbortController := false } with hsB
  set stC : AgentState := { saveSessionState stQ sessionId sA.messages now2 with sessions := alSet (saveSessionState stQ sessionId sA.messages now2).sessions sessionId sB } with hstC
  have hfin : finishActiveTurn stQ sessionId now2 script 2 =
      drainLoop script 2 stC sessionId := by
    rw [hstC, hsB]
    simp [finishActiveTurn, hgQ]
  have hsCg : alGet stC.sessions sessionId = some sB := by
    rw [hstC]
    exact alGet_alSet_self _ _ _
  have hrB : sB.isRunning = false := by rw [hsB]
  have hqB : sB.promptQueue = [qp] := by rw [hsB, hsA]
  obtain ⟨hfil, hqf, s2, hgs2, hm2⟩ :=
    drainLoop_two_singleton stC sessionId script sB qp hsCg hrB hqB hids
  rw [hstep1, hfin]
  refine ⟨rfl, ?_, hqf, s2, hgs2, ?_⟩
  · simp [List.filter_append, isQueueUpdatedEvent, hfil]
  · simpa [hqp] using hm2

/-- Closed instance of `queue_single_item_drains`: one prompt enqueued on
the concrete Active state, drained after the turn completes, with the two
`queue_updated` events spelled out. -/
theorem queue_single_item_drains_witness :
    (addToQueue wStateActive "s1" "q1" "follow up" none "t1").2.2 = true ∧
    ((addToQueue wStateActive "s1" "q1" "follow up" none "t1").2.1 ++
      (finishActiveTurn (addToQueue wStateActive "s1" "q1" "follow up" none "t1").1
        "s1" "t2" (fun _ => ⟨wIds, "t3", [], TurnOutcome.completed⟩) 2).2).filter
      isQueueUpdatedEvent =
      [AgentEvent.queueUpdated [⟨"q1", "follow up", none, "t1"⟩],
        AgentEvent.queueUpdated []] :=
  ⟨(queue_single_item_drains wStateActive "s1" "q1" "follow up" none "t1" "t2"
      (fun _ => ⟨wIds, "t3", [], TurnOutcome.completed⟩) wRunningSession rfl rfl rfl
      (fun _ => by show ¬wIds.userId = wIds.assistantId; decide)).1,
   (queue_single_item_drains wStateActive "s1" "q1" "follow up" none "t1" "t2"
      (fun _ => ⟨wIds, "t3", [], TurnOutcome.completed⟩) wRunningSession rfl rfl rfl
      (fun _ => by show ¬wIds.userId = wIds.assistantId; decide)).2.1⟩

/-- Reading back the slot just written. -/
theorem getAcc_setAcc_self (m : List (Nat × ToolCallAccumulator)) (i : Nat)
    (a : ToolCallAccumulator) : getAcc (setAcc m i a) i = some a := by
  induction m with
  | nil => simp [setAcc, getAcc]
  | cons p rest ih =>
    by_cases h : p.1 = i
    · simp [setAcc, getAcc, h]
    · simp [setAcc, getAcc, h, ih]

/-- Writing one slot leaves every other slot unchanged. -/
theorem getAcc_setAcc_ne (m : List (Nat × ToolCallAccumulator)) (i j : Nat)
    (a : ToolCallAccumulator) (h : j ≠ i) :
    getAcc (setAcc m i a) j = getAcc m j := by
  have h2 : ¬(i = j) := fun hx => h hx.symm
  induction m with
  | nil => simp [setAcc, getAcc, h2]
  | cons p rest ih =>
    by_cases hp : p.1 = i
    · simp [setAcc, getAcc, hp, h2]
    · by_cases hp2 : p.1 = j
      · simp [setAcc, getAcc, hp, hp2, h]
      · simp [setAcc, getAcc, hp, hp2, ih]

/-- The value a slot holds after accumulating a fragment stream is the
per-slot fold of exactly that slot's fragments, in their stream order. -/
theorem getAcc_foldl (ds : List ToolCallDelta) (m : List (Nat × ToolCallAccumulator))
    (i : Nat) :
    getAcc (ds.foldl stepDelta m) i =
      (ds.filter (fun d => d.index == i)).foldl optStep (getAcc m i) := by
  induction ds generalizing m with
  | nil => rfl
  | cons d rest ih =>
    by_cases h : d.index = i
    · rw [List.foldl_cons, ih]
      have hstep : getAcc (stepDelta m d) i = optStep (getAcc m i) d := by
        rw [stepDelta, optStep, h, getAcc_setAcc_self]
      rw [hstep]
      simp [List.filter_cons, h]
    · rw [List.foldl_cons, ih]
      have hstep : getAcc (stepDelta m d) i = getAcc m i := by
        rw [stepDelta]
        exact getAcc_setAcc_ne m d.index i _ (fun hx => h hx.symm)
      rw [hstep]
      simp [List.filter_cons, h]

/-- Key membership after one write. -/
theorem mem_keys_setAcc (m : List (Nat × ToolCallAccumulator)) (i j : Nat)
    (a : ToolCallAccumulator) :
    j ∈ (setAcc m i a).map Prod.fst ↔ j ∈ m.map Prod.fst ∨ j = i := by
  induction m with
  | nil => simp [setAcc]
  | cons p rest ih =>
    obtain ⟨k2, b⟩ := p
    by_cases h : k2 = i
    · subst h
      simp [setAcc]
      tauto
    · simp [setAcc, h, ih]
      tauto

/-- One write preserves distinctness of the slot keys. -/
theorem nodup_keys_setAcc (m : List (Nat × ToolCallAccumulator)) (i : Nat)
    (a : ToolCallAccumulator) (h : (m.map Prod.fst).Nodup) :
    ((setAcc m i a).map Prod.fst).Nodup := by
  induction m with
  | nil => simp [setAcc]
  | cons p rest ih =>
    simp only [List.map_cons, List.nodup_cons] at h
    by_cases hp : p.1 = i
    · simp only [setAcc, hp, if_true, List.map_cons, List.nodup_cons]
      exact ⟨by rw [← hp]; exact h.1, h.2⟩
    · simp only [setAcc, hp, if_false, List.map_cons, List.nodup_cons]
      refine ⟨?_, ih h.2⟩
      intro hmem
      rcases (mem_keys_setAcc rest i p.1 a).mp hmem with h2 | h2
      · exact h.1 h2
      · exact hp h2

/-- The accumulator map always has distinct slot keys. -/
theorem nodup_keys_accumulate (ds : List ToolCallDelta) :
    ((accumulate ds).map Prod.fst).Nodup := by
  suffices h : ∀ m : List (Nat × ToolCallAccumulator), (m.map Prod.fst).Nodup →
      ((ds.foldl stepDelta m).map Prod.fst).Nodup by
    exact h [] (by simp)
  induction ds with
  | nil => intro m hm; exact hm
  | cons d rest ih =>
    intro m hm
    exact ih _ (nodup_keys_setAcc m d.index _ hm)

/-- With distinct keys, lookup characterizes membership. -/
theorem getAcc_eq_some_iff_mem (m : List (Nat × ToolCallAccumulator)) (i : Nat)
    (a : ToolCallAccumulator) (hnd : (m.map Prod.fst).Nodup) :
    getAcc m i = some a ↔ (i, a) ∈ m := by
  induction m with
  | nil => simp [getAcc]
  | cons p rest ih =>
    obtain ⟨j, b⟩ := p
    simp only [List.map_cons, List.nodup_cons] at hnd
    by_cases h : j = i
    · subst h
      simp only [getAcc, if_true, List.mem_cons]
      constructor
      · intro hpa
        left
        rw [Option.some_inj.mp hpa]
      · intro hc
        rcases hc with hc | hc
        · rw [(Prod.mk.injEq _ _ _ _).mp hc.symm |>.2]
        · exfalso
          exact hnd.1 (List.mem_map_of_mem Prod.fst hc)
    · simp only [getAcc, h, if_false, List.mem_cons, ih hnd.2]
      constructor
      · intro hc
        exact Or.inr hc
      · intro hc
        rcases hc with hc | hc
        · exact absurd ((Prod.mk.injEq _ _ _ _).mp hc.symm).1 h
        · exact hc

/-- Two fragment streams with the same per-slot fragment subsequences
accumulate to permuted maps (same slots, same accumulated values). -/
theorem accumulate_perm (ds1 ds2 : List ToolCallDelta)
    (hfil : ∀ i : Nat, ds1.filter (fun d => d.index == i) =
      ds2.filter (fun d => d.index == i)) :
    List.Perm (accumulate ds1) (accumulate ds2) := by
  have hget : ∀ i, getAcc (accumulate ds1) i = getAcc (accumulate ds2) i := by
    intro i
    rw [accumulate, accumulate, getAcc_foldl, getAcc_foldl, hfil]
  have hnd1 := nodup_keys_accumulate ds1
  have hnd2 := nodup_keys_accumulate ds2
  rw [List.perm_ext_iff_of_nodup (List.Nodup.of_map _ hnd1) (List.Nodup.of_map _ hnd2)]
  intro pair
  obtain ⟨i, a⟩ := pair
  rw [← getAcc_eq_some_iff_mem _ _ _ hnd1, ← getAcc_eq_some_iff_mem _ _ _ hnd2, hget]

/-- The sorted entry list of an accumulated map is strictly sorted by
slot index. -/
theorem entriesSorted_strict (ds : List ToolCallDelta) :
    List.Sorted keyLT (entriesSorted (accumulate ds)) := by
  have hs : List.Sorted keyLE (entriesSorted (accumulate ds)) :=
    List.sorted_insertionSort keyLE (accumulate ds)
  have hperm : List.Perm (entriesSorted (accumulate ds)) (accumulate ds) :=
    List.perm_insertionSort keyLE (accumulate ds)
  have hnd : ((entriesSorted (accumulate ds)).map Prod.fst).Nodup :=
    ((hperm.map Prod.fst).nodup_iff).mpr (nodup_keys_accumulate ds)
  have hne : (entriesSorted (accumulate ds)).Pairwise (fun a b => a.1 ≠ b.1) :=
    List.pairwise_map.mp hnd
  exact (hs.and hne).imp (fun h => Nat.lt_of_le_of_ne h.1 h.2)

/-- Equal per-slot fragment subsequences give equal sorted entry lists. -/
theorem entriesSorted_eq (ds1 ds2 : List ToolCallDelta)
    (hfil : ∀ i : Nat, ds1.filter (fun d => d.index == i) =
      ds2.filter (fun d => d.index == i)) :
    entriesSorted (accumulate ds1) = entriesSorted (accumulate ds2) := by
  have hperm : List.Perm (entriesSorted (accumulate ds1)) (entriesSorted (accumulate ds2)) :=
    ((List.perm_insertionSort keyLE _).trans (accumulate_perm ds1 ds2 hfil)).trans
      (List.perm_insertionSort keyLE _).symm
  exact List.eq_of_perm_of_sorted hperm (entriesSorted_strict ds1) (entriesSorted_strict ds2)

/-- C2: two delta streams that carry the same tool-call fragments per slot
index in the same per-slot order — however the two slots' fragments are
interleaved — produce the same finished tool calls; the finished entries
are strictly sorted by ascending slot index (not discovery order), the
executed call list is exactly their projection, and each slot's
accumulated call is the in-order fold of just that slot's fragments. -/
theorem toolCall_accumulation_order_independent (ds1 ds2 : List ToolCallDelta)
    (hfil : ∀ i : Nat, ds1.filter (fun d => d.index == i) =
      ds2.filter (fun d => d.index == i)) :
    toolCallsOf ds1 = toolCallsOf ds2 ∧
    List.Sorted keyLT (finishedEntries (accumulate ds1)) ∧
    toolCallsOf ds1 = (finishedEntries (accumulate ds1)).map Prod.snd ∧
    (∀ i : Nat, getAcc (accumulate ds1) i =
      (ds1.filter (fun d => d.index == i)).foldl optStep none) := by
  refine ⟨?_, ?_, ?_, ?_⟩
  · rw [toolCallsOf, toolCallsOf, finishToolCalls, finishToolCalls,
      entriesSorted_eq ds1 ds2 hfil]
  · exact List.Pairwise.filter _ (entriesSorted_strict ds1)
  · rw [toolCallsOf, finishToolCalls, finishedEntries, List.filter_map]
    rfl
  · intro i
    rw [accumulate, getAcc_foldl]
    rfl

/-- Closed instance of `toolCall_accumulation_order_independent`: fragments
of slots 0 and 1 interleaved out of order versus grouped per slot give the
same two complete calls, with their argument fragments concatenated per
slot and the calls ordered by ascending slot index. -/
theorem toolCall_accumulation_order_independent_witness :
    toolCallsOf
        [⟨0, some "call0", some "Read", some "ar"⟩,
         ⟨1, some "call1", some "Write", some "br"⟩,
         ⟨0, none, none, some "gs0"⟩,
         ⟨1, none, none, some "gs1"⟩] =
      toolCallsOf
        [⟨0, some "call0", some "Read", some "ar"⟩,
         ⟨0, none, none, some "gs0"⟩,
         ⟨1, some "call1", some "Write", some "br"⟩,
         ⟨1, none, none, some "gs1"⟩] ∧
    toolCallsOf
        [⟨0, some "call0", some "Read", some "ar"⟩,
         ⟨1, some "call1", some "Write", some "br"⟩,
         ⟨0, none, none, some "gs0"⟩,
         ⟨1, none, none, some "gs1"⟩] =
      [⟨"call0", "Read", "args0"⟩, ⟨"call1", "Write", "brgs1"⟩] :=
  ⟨(toolCall_accumulation_order_independent
      [⟨0, some "call0", some "Read", some "ar"⟩,
       ⟨1, some "call1", some "Write", some "br"⟩,
       ⟨0, none, none, some "gs0"⟩,
       ⟨1, none, none, some "gs1"⟩]
      [⟨0, some "call0", some "Read", some "ar"⟩,
       ⟨0, none, none, some "gs0"⟩,
       ⟨1, some "call1", some "Write", some "br"⟩,
       ⟨1, none, none, some "gs1"⟩]
      (fun i => match i with
        | 0 => rfl
        | 1 => rfl
        | _ + 2 => rfl)).1,
   by decide⟩

/-- If every opened round accumulates at least one complete tool call,
the loop exhausts its fuel with the budget error, and yields no success
result event beyond those already present. -/
theorem queryLoopAux_error_no_success (backend : Nat → List StreamChunk)
    (runTools : List ToolCall → List ToolExecutionOutput) (fuel : Nat) :
    ∀ (iter : Nat) (msgs : List OAMsg) (events : List QEvent),
    (∀ k, iter ≤ k → k < iter + fuel →
      ¬(finishToolCalls (processRound (backend k)).accs).isEmpty = true) →
    (queryLoopAux backend runTools fuel iter msgs events).result =
      Except.error "OpenAI tool loop exceeded maxTurns." ∧
    (∀ s : String,
      QEvent.resultSuccess s ∈ (queryLoopAux backend runTools fuel iter msgs events).events →
      QEvent.resultSuccess s ∈ events) := by
  induction fuel with
  | zero => exact fun iter msgs events _ => ⟨rfl, fun s h => h⟩
  | succ fuel ih =>
    intro iter msgs events hcalls
    have hc := hcalls iter (Nat.le_refl _) (by omega)
    constructor
    · simp only [queryLoopAux]
      rw [if_neg hc]
      exact (ih (iter + 1) _ _ (fun k hk1 hk2 => hcalls k (by omega) (by omega))).1
    · intro s h
      simp only [queryLoopAux] at h
      rw [if_neg hc] at h
      have h3 := (ih (iter + 1) _ _ (fun k hk1 hk2 => hcalls k (by omega) (by omega))).2 s h
      simp only [List.mem_append] at h3
      rcases h3 with ((h3 | h3) | h3) | h3
      · exact h3
      · simp [List.mem_map] at h3
      · simp at h3
      · simp [List.mem_map] at h3

/-- The loop opens at most `fuel` backend streaming rounds. -/
theorem queryLoopAux_rounds_le (backend : Nat → List StreamChunk)
    (runTools : List ToolCall → List ToolExecutionOutput) (fuel : Nat) :
    ∀ (iter : Nat) (msgs : List OAMsg) (events : List QEvent),
    (queryLoopAux backend runTools fuel iter msgs events).rounds ≤ fuel := by
  induction fuel with
  | zero => intro iter msgs events; simp [queryLoopAux]
  | succ fuel ih =>
    intro iter msgs events
    simp only [queryLoopAux]
    by_cases hc : (finishToolCalls (processRound (backend iter)).accs).isEmpty = true
    · rw [if_pos hc]
      simp
    · rw [if_neg hc]
      exact Nat.succ_le_succ (ih (iter + 1) _ _)

/-- A round that ends with zero complete tool calls makes the loop yield
the success result carrying that round's accumulated text and return. -/
theorem queryLoopAux_success_round (backend : Nat → List StreamChunk)
    (runTools : List ToolCall → List ToolExecutionOutput)
    (fuel iter : Nat) (msgs : List OAMsg) (events : List QEvent)
    (hc : (finishToolCalls (processRound (backend iter)).accs).isEmpty = true) :
    queryLoopAux backend runTools (fuel + 1) iter msgs events =
      ⟨(events ++ (processRound (backend iter)).textEvents.map QEvent.assistantText) ++
        [QEvent.resultSuccess (processRound (backend iter)).assistantText], 1,
       Except.ok (processRound (backend iter)).assistantText⟩ := by
  simp only [queryLoopAux]
  rw [if_pos hc]

/-- C4: the OpenAI-compatible tool loop opens at most `maxTurns` backend
streaming rounds; when every round ends with at least one complete
accumulated tool call it terminates with the hard budget-exhaustion error
and never yields a success result event; a round ending with zero tool
calls yields the success result carrying the accumulated text and
returns. -/
theorem turn_budget_is_hard_error (backend : Nat → List StreamChunk)
    (runTools : List ToolCall → List ToolExecutionOutput)
    (initMsgs : List OAMsg) (maxTurns : Nat) :
    (executeQueryLoop backend runTools initMsgs maxTurns).rounds ≤ maxTurns ∧
    ((∀ k, k < maxTurns →
        ¬(finishToolCalls (processRound (backend k)).accs).isEmpty = true) →
      (executeQueryLoop backend runTools initMsgs maxTurns).result =
        Except.error "OpenAI tool loop exceeded maxTurns." ∧
      (∀ s : String, QEvent.resultSuccess s ∉
        (executeQueryLoop backend runTools initMsgs maxTurns).events)) ∧
    (∀ (fuel iter : Nat) (msgs : List OAMsg) (events : List QEvent),
      (finishToolCalls (processRound (backend iter)).accs).isEmpty = true →
      (queryLoopAux backend runTools (fuel + 1) iter msgs events).result =
        Except.ok (processRound (backend iter)).assistantText ∧
      (queryLoopAux backend runTools (fuel + 1) iter msgs events).events =
        (events ++ (processRound (backend iter)).textEvents.map QEvent.assistantText) ++
          [QEvent.resultSuccess (processRound (backend iter)).assistantText]) := by
  refine ⟨?_, ?_, ?_⟩
  · exact queryLoopAux_rounds_le backend runTools maxTurns 0 initMsgs []
  · intro hcalls
    obtain ⟨h1, h2⟩ := queryLoopAux_error_no_success backend runTools maxTurns 0 initMsgs []
      (fun k hk1 hk2 => hcalls k (by omega))
    refine ⟨h1, ?_⟩
    intro s h
    simpa using h2 s h
  · intro fuel iter msgs events hc
    rw [queryLoopAux_success_round backend runTools fuel iter msgs events hc]
    exact ⟨rfl, rfl⟩

/-- Closed instance of `turn_budget_is_hard_error`: a backend that emits a
complete tool call every round exhausts a 2-turn budget with the hard
error; a backend whose first round streams no tool calls succeeds. -/
theorem turn_budget_is_hard_error_witness :
    (executeQueryLoop (fun _ => [wCallChunk]) (fun _ => []) [] 2).result =
      Except.error "OpenAI tool loop exceeded maxTurns." ∧
    (queryLoopAux (fun _ => []) (fun _ => []) 2 0 [] []).result = Except.ok "" :=
  ⟨((turn_budget_is_hard_error (fun _ => [wCallChunk]) (fun _ => []) [] 2).2.1
      (fun k hk => by interval_cases k <;> decide)).1,
   by
    have h := ((turn_budget_is_hard_error (fun _ => []) (fun _ => []) [] 2).2.2
      1 0 [] [] (by decide)).1
    simpa using h⟩

/-- The per-directory entry loop keeps the result list under the cap:
an early return carries at most `m` paths, and a normal return stays
strictly below `m`. -/
theorem processEntries_length (ignore : List String) (m : Nat) (rel : List String)
    (es : List Dirent) :
    ∀ (pending : List (List String × List Dirent)) (results : List (List String)),
    results.length < m →
    (∀ res, processEntries ignore m rel es pending results = Except.error res →
      res.length ≤ m) ∧
    (∀ p2 r2, processEntries ignore m rel es pending results = Except.ok (p2, r2) →
      r2.length < m) := by
  induction es with
  | nil =>
    intro pending results hlt
    constructor
    · intro res h
      simp [processEntries] at h
    · intro p2 r2 h
      simp only [processEntries, Except.ok.injEq, Prod.mk.injEq] at h
      rw [← h.2]
      exact hlt
  | cons d rest ih =>
    intro pending results hlt
    cases d with
    | dir n sub =>
      by_cases hn : ignore.contains n = true
      · simp only [processEntries, hn, if_true]
        exact ih pending results hlt
      · simp only [processEntries, hn, if_false]
        exact ih _ results hlt
    | file n =>
      by_cases hm : m ≤ (results ++ [rel ++ [n]]).length
      · simp only [processEntries, hm, if_true]
        constructor
        · intro res h
          simp only [Except.error.injEq] at h
          rw [← h]
          have hlen : (results ++ [rel ++ [n]]).length = results.length + 1 := by simp
          omega
        · intro p2 r2 h
          simp at h
      · simp only [processEntries, hm, if_false]
        refine ih pending _ ?_
        have hlen : (results ++ [rel ++ [n]]).length = results.length + 1 := by simp
        omega

/-- The walk never returns more than `m` paths (given the cap is positive,
which holds for the built-in `DEFAULT_MAX_RESULTS`). -/
theorem walkAux_length (ignore : List String) (m : Nat) (fuel : Nat) :
    ∀ (pending : List (List String × List Dirent)) (results : List (List String)),
    results.length < m →
    (walkAux ignore m fuel pending results).length ≤ m := by
  induction fuel with
  | zero =>
    intro pending results h
    simp only [walkAux]
    omega
  | succ fuel ih =>
    intro pending results h
    simp only [walkAux]
    split
    · omega
    · rename_i rel entries hlast
      split
      · rename_i res hpe
        exact (processEntries_length ignore m rel entries pending.dropLast results h).1
          res hpe
      · rename_i p2 r2 hpe
        exact ih p2 r2
          ((processEntries_length ignore m rel entries pending.dropLast results h).2
            p2 r2 hpe)

/-- The entry loop preserves the invariant that no pending directory and
no recorded path has an ignored directory among its ancestors. -/
theorem processEntries_clean (ignore : List String) (m : Nat) (rel : List String)
    (es : List Dirent) :
    ∀ (pending : List (List String × List Dirent)) (results : List (List String)),
    (∀ seg ∈ rel, ¬seg ∈ ignore) →
    (∀ pr ∈ pending, ∀ seg ∈ pr.1, ¬seg ∈ ignore) →
    (∀ p ∈ results, ∀ seg ∈ p.dropLast, ¬seg ∈ ignore) →
    (∀ res, processEntries ignore m rel es pending results = Except.error res →
      ∀ p ∈ res, ∀ seg ∈ p.dropLast, ¬seg ∈ ignore) ∧
    (∀ p2 r2, processEntries ignore m rel es pending results = Except.ok (p2, r2) →
      (∀ pr ∈ p2, ∀ seg ∈ pr.1, ¬seg ∈ ignore) ∧
      (∀ p ∈ r2, ∀ seg ∈ p.dropLast, ¬seg ∈ ignore)) := by
  induction es with
  | nil =>
    intro pending results hrel hpend hres
    constructor
    · intro res h
      simp [processEntries] at h
    · intro p2 r2 h
      simp only [processEntries, Except.ok.injEq, Prod.mk.injEq] at h
      rw [← h.1, ← h.2]
      exact ⟨hpend, hres⟩
  | cons d rest ih =>
    intro pending results hrel hpend hres
    cases d with
    | dir n sub =>
      by_cases hn : ignore.contains n = true
      · simp only [processEntries, hn, if_true]
        exact ih pending results hrel hpend hres
      · simp only [processEntries, hn, if_false]
        refine ih _ results hrel ?_ hres
        intro pr hpr seg hseg
        rcases List.mem_append.mp hpr with h2 | h2
        · exact hpend pr h2 seg hseg
        · rw [List.mem_singleton] at h2
          rw [h2] at hseg
          rcases List.mem_append.mp hseg with h3 | h3
          · exact hrel seg h3
          · rw [List.mem_singleton] at h3
            rw [h3]
            intro hmem
            exact hn (List.elem_iff.mpr hmem)
    | file n =>
      have hres2 : ∀ p ∈ results ++ [rel ++ [n]], ∀ seg ∈ p.dropLast, ¬seg ∈ ignore := by
        intro p hp seg hseg
        rcases List.mem_append.mp hp with h2 | h2
        · exact hres p h2 seg hseg
        · rw [List.mem_singleton] at h2
          rw [h2, List.dropLast_concat] at hseg
          exact hrel seg hseg
      by_cases hm : m ≤ (results ++ [rel ++ [n]]).length
      · simp only [processEntries, hm, if_true]
        constructor
        · intro res h
          simp only [Except.error.injEq] at h
          rw [← h]
          exact hres2
        · intro p2 r2 h
          simp at h
      · simp only [processEntries, hm, if_false]
        exact ih pending _ hrel hpend hres2

/-- The walk records only paths none of whose ancestor directories is on
the ignore list. -/
theorem walkAux_clean (ignore : List String) (m : Nat) (fuel : Nat) :
    ∀ (pending : List (List String × List Dirent)) (results : List (List String)),
    (∀ pr ∈ pending, ∀ seg ∈ pr.1, ¬seg ∈ ignore) →
    (∀ p ∈ results, ∀ seg ∈ p.dropLast, ¬seg ∈ ignore) →
    ∀ p ∈ walkAux ignore m fuel pending results, ∀ seg ∈ p.dropLast, ¬seg ∈ ignore := by
  induction fuel with
  | zero =>
    intro pending results hpend hres
    simpa [walkAux] using hres
  | succ fuel ih =>
    intro pending results hpend hres
    simp only [walkAux]
    split
    · exact hres
    · rename_i rel entries hlast
      have hrel : ∀ seg ∈ rel, ¬seg ∈ ignore :=
        hpend (rel, entries) (List.mem_of_getLast?_eq_some hlast)
      have hpend2 : ∀ pr2 ∈ pending.dropLast, ∀ seg ∈ pr2.1, ¬seg ∈ ignore :=
        fun pr2 h2 => hpend pr2 ((List.dropLast_sublist pending).subset h2)
      split
      · rename_i res hpe
        exact (processEntries_clean ignore m rel entries pending.dropLast results
          hrel hpend2 hres).1 res hpe
      · rename_i p2 r2 hpe
        obtain ⟨hp2, hr2⟩ := (processEntries_clean ignore m rel entries
          pending.dropLast results hrel hpend2 hres).2 p2 r2 hpe
        exact ih p2 r2 hp2 hr2

/-- C10: the Glob tool reports at most `DEFAULT_MAX_RESULTS` (2000) paths
and never a path lying under one of the fixed ignored directories; the
caller-supplied `max_results` is parsed but has no effect on the result,
because the walk is always capped at the built-in constant. -/
theorem globTool_bounded_and_confined (params : GlobParams) (rootEntries : List Dirent) :
    (globFiles params rootEntries).length ≤ DEFAULT_MAX_RESULTS ∧
    (∀ segs ∈ globMatchesSegs params rootEntries, ∀ seg ∈ segs.dropLast,
      ¬seg ∈ DEFAULT_IGNORE_DIRS) ∧
    (∀ a b : Option Nat,
      globFiles { params with max_results := a } rootEntries =
        globFiles { params with max_results := b } rootEntries ∧
      globToolResult { params with max_results := a } rootEntries =
        globToolResult { params with max_results := b } rootEntries) := by
  refine ⟨?_, ?_, ?_⟩
  · rw [globFiles, List.length_map]
    calc (globMatchesSegs params rootEntries).length
        ≤ (walkDirectory rootEntries DEFAULT_MAX_RESULTS).length :=
          List.length_filter_le _ _
      _ ≤ DEFAULT_MAX_RESULTS := by
          rw [walkDirectory]
          exact walkAux_length DEFAULT_IGNORE_DIRS DEFAULT_MAX_RESULTS _ _ [] (by decide)
  · intro segs hsegs seg hseg
    have hwalk : segs ∈ walkDirectory rootEntries DEFAULT_MAX_RESULTS :=
      List.mem_of_mem_filter hsegs
    rw [walkDirectory] at hwalk
    exact walkAux_clean DEFAULT_IGNORE_DIRS DEFAULT_MAX_RESULTS _ _ []
      (by
        intro pr hpr seg2 hseg2
        rw [List.mem_singleton] at hpr
        rw [hpr] at hseg2
        simp at hseg2)
      (by intro p hp; simp at hp)
      segs hwalk seg hseg
  · intro a b
    exact ⟨rfl, rfl⟩

/-- Closed instance of `globTool_bounded_and_confined`: a small tree with
a `node_modules` subtree; the reported paths stay out of it and two
different `max_results` arguments give identical output. -/
theorem globTool_bounded_and_confined_witness :
    (globFiles ⟨some "**/*", none, some 1⟩
      [Dirent.dir "node_modules" [Dirent.file "x.js"],
       Dirent.dir "src" [Dirent.file "a.ts"], Dirent.file "b.md"]).length ≤
      DEFAULT_MAX_RESULTS ∧
    globFiles ⟨some "**/*", none, some 1⟩
      [Dirent.dir "node_modules" [Dirent.file "x.js"],
       Dirent.dir "src" [Dirent.file "a.ts"], Dirent.file "b.md"] =
      globFiles ⟨some "**/*", none, some 500⟩
      [Dirent.dir "node_modules" [Dirent.file "x.js"],
       Dirent.dir "src" [Dirent.file "a.ts"], Dirent.file "b.md"] ∧
    globFiles ⟨some "**/*", none, some 1⟩
      [Dirent.dir "node_modules" [Dirent.file "x.js"],
       Dirent.dir "src" [Dirent.file "a.ts"], Dirent.file "b.md"] =
      ["b.md", "src/a.ts"] :=
  ⟨(globTool_bounded_and_confined ⟨some "**/*", none, some 1⟩
      [Dirent.dir "node_modules" [Dirent.file "x.js"],
       Dirent.dir "src" [Dirent.file "a.ts"], Dirent.file "b.md"]).1,
   ((globTool_bounded_and_confined ⟨some "**/*", none, none⟩
      [Dirent.dir "node_modules" [Dirent.file "x.js"],
       Dirent.dir "src" [Dirent.file "a.ts"], Dirent.file "b.md"]).2.2 (some 1) (some 500)).1,
   by decide⟩

end Automaker
